import Mathlib

/-!
Verification of the chroma-oracle colour-sorting puzzle solver.

This file gives a shallow embedding, in Lean 4, of the parts of the
repository that the checked claims are about:

* the `Colour` enumeration (`src/chroma_oracle/lib/colour.py`);
* `UnknownPuzzleData`, `calculate_needed_colors`, `generate_candidate_grids`
  and `solve_all_candidates` (`src/chroma_oracle/lib/unknown_solver.py`);
* the needed-colour computation inlined in `find_all_solutions`
  (`src/solver/win_strategy.py`) and `solve_mystery` (`src/solver/guess.py`);
* `find_common_prefix` (`src/solver/lib/strategy.py`, identical loop in
  `src/solver/win_strategy.py`);
* `load` (`src/solver/lib/json2collection.py`);
* `simulate_moves_on_grid` (`src/chroma_oracle/cli/simulation.py`);
* `_get_first_moves` and `match_first_steps` (`src/solver/match_steps.py`).

The repository's `collection.py`, `search.py` and `item.py` modules for the
`chroma_oracle` package are not available; where a claim depends on them the
corresponding behaviour is modelled from the specification (such definitions
carry a doc comment starting with `Modelled from the spec:`), or the solver
is abstracted as a function parameter.

Python `dict`s preserve insertion order, which the embedding mirrors with
association lists; Python string/tuple comparison is mirrored by an explicit
code-point lexicographic comparison.
-/

namespace ChromaOracle

/-- The `Colour` enumeration of `src/chroma_oracle/lib/colour.py`, in its
declaration order.  The `sty` rendering attributes carried by the Python enum
values are presentation-only and are not part of the model. -/
inductive Colour where
  | RED
  | PINK
  | BROWN
  | GREEN
  | LIGHT_GREEN
  | DARK_GREEN
  | YELLOW
  | BLUE
  | LIGHT_BLUE
  | DARK_BLUE
  | GREY
  | PURPLE
  | ORANGE
  | UNKNOWN
deriving DecidableEq, Repr

/-- `c.name` for a Python enum member. -/
def Colour.name : Colour → String
  | .RED => "RED"
  | .PINK => "PINK"
  | .BROWN => "BROWN"
  | .GREEN => "GREEN"
  | .LIGHT_GREEN => "LIGHT_GREEN"
  | .DARK_GREEN => "DARK_GREEN"
  | .YELLOW => "YELLOW"
  | .BLUE => "BLUE"
  | .LIGHT_BLUE => "LIGHT_BLUE"
  | .DARK_BLUE => "DARK_BLUE"
  | .GREY => "GREY"
  | .PURPLE => "PURPLE"
  | .ORANGE => "ORANGE"
  | .UNKNOWN => "UNKNOWN"

/-- Iteration over the `Colour` enum (`for c in Colour`), in declaration
order. -/
def colourMembers : List Colour :=
  [.RED, .PINK, .BROWN, .GREEN, .LIGHT_GREEN, .DARK_GREEN, .YELLOW, .BLUE,
   .LIGHT_BLUE, .DARK_BLUE, .GREY, .PURPLE, .ORANGE, .UNKNOWN]

/-- `[c.name for c in Colour if c.name != "UNKNOWN"]`
(`unknown_solver.calculate_needed_colors`). -/
def validColours : List String :=
  (colourMembers.filter (fun c => c.name != "UNKNOWN")).map Colour.name

/-- `[c.name for c in Colour]` (`win_strategy.find_all_solutions` and
`guess.solve_mystery`): the Unknown colour is not excluded there. -/
def validColoursFull : List String :=
  colourMembers.map Colour.name

/-- A raw grid as parsed from JSON: a list of containers, each a list of
colour-name strings (bottom of the stack first). -/
abbrev RawGrid := List (List String)

/-- `item == "UNKNOWN" or item == "?"`: the two markers of an unknown slot. -/
def isUnknownStr (s : String) : Bool := s == "UNKNOWN" || s == "?"

/-- `grid[r][c]` as an optional value. -/
def getEntry (g : RawGrid) (r c : Nat) : Option String :=
  g[r]?.bind (fun row => row[c]?)

/-- `grid[r][c] = v` (in-range by construction at every use in the source). -/
def setAt (g : RawGrid) (r c : Nat) (v : String) : RawGrid :=
  g.set r ((g[r]?.getD []).set c v)

/-- The inner loop of `UnknownPuzzleData.__init__` over one container `row`
whose items start at column index `c`: returns the known items and the
`(r, c)` positions of unknown markers, in order. -/
def scanRowAux (r : Nat) : Nat → List String → List String × List (Nat × Nat)
  | _, [] => ([], [])
  | c, s :: rest =>
    let p := scanRowAux r (c + 1) rest
    if isUnknownStr s then (p.1, (r, c) :: p.2) else (s :: p.1, p.2)

/-- The outer loop of `UnknownPuzzleData.__init__`, rows numbered from `r`. -/
def scanAux : Nat → RawGrid → List String × List (Nat × Nat)
  | _, [] => ([], [])
  | r, row :: rest =>
    let p1 := scanRowAux r 0 row
    let p2 := scanAux (r + 1) rest
    (p1.1 ++ p2.1, p1.2 ++ p2.2)

/-- `UnknownPuzzleData` (`src/chroma_oracle/lib/unknown_solver.py`): the raw
grid together with its known items and the positions of its unknown slots. -/
structure UnknownPuzzleData where
  raw_grid : RawGrid
  all_items : List String
  unknown_indices : List (Nat × Nat)
deriving DecidableEq, Repr

/-- `UnknownPuzzleData.__init__(raw_grid)`. -/
def mkUnknownPuzzleData (raw : RawGrid) : UnknownPuzzleData :=
  ⟨raw, (scanAux 0 raw).1, (scanAux 0 raw).2⟩

/-- `Move` (`src/solver/lib/move.py`): a `(src, dest)` pair of container
indices, compared componentwise (Python dataclass equality). -/
structure Move where
  src : Nat
  dest : Nat
deriving DecidableEq, Repr

/-- `Move.reverse`. -/
def Move.reverse (m : Move) : Move := ⟨m.dest, m.src⟩

/-- `min(len(sol) for sol in move_seqs)`: Python `min` over a non-empty
list (the `[]` case is unreachable in the source). -/
def minLenList : List Nat → Nat
  | [] => 0
  | x :: xs => xs.foldl Nat.min x

/-- The scanning loop of `find_common_prefix`
(`src/solver/lib/strategy.py` lines 62-67): starting at position `i` with
`fuel` positions left before `min_length`, append `move_seqs[0][i]` while all
sequences agree at `i`, and stop at the first disagreement. -/
def prefixLoop (seqs : List (List Move)) : Nat → Nat → List Move
  | _, 0 => []
  | i, fuel + 1 =>
    match seqs with
    | [] => []
    | s0 :: _ =>
      match s0[i]? with
      | none => []
      | some firstMove =>
        if seqs.all (fun s => decide (s[i]? = some firstMove)) then
          firstMove :: prefixLoop seqs (i + 1) fuel
        else []

/-- `find_common_prefix(solutions)` (`src/solver/lib/strategy.py`): the
longest common prefix of the move sequences of a list of
`(candidate_grid, moves)` solutions.  The identically-named function in
`src/solver/win_strategy.py` is the same loop applied directly to the list
of move sequences, i.e. `prefixLoop` below on `seqs`. -/
def findCommonPrefix (solutions : List (RawGrid × List Move)) : List Move :=
  match solutions with
  | [] => []
  | _ :: _ =>
    let seqs := solutions.map Prod.snd
    prefixLoop seqs 0 (minLenList (seqs.map List.length))

/-! ### Colour counting (Python `dict` with insertion order) -/

/-- `counts[item] = counts.get(item, 0) + 1` on an insertion-ordered
association list, as a Python `dict` behaves. -/
def incCount : List (String × Nat) → String → List (String × Nat)
  | [], s => [(s, 1)]
  | (k, n) :: rest, s =>
    if k = s then (k, n + 1) :: rest else (k, n) :: incCount rest s

/-- The counting loop `for item in items: counts[item] = counts.get(item, 0) + 1`. -/
def countsOf (items : List String) : List (String × Nat) :=
  items.foldl incCount []

/-- `counts.get(s, 0)`. -/
def lookupCount : List (String × Nat) → String → Nat
  | [], _ => 0
  | (k, n) :: rest, s => if k = s then n else lookupCount rest s

/-- `s in counts` (Python key membership). -/
def containsKey (cs : List (String × Nat)) (s : String) : Bool :=
  cs.any (fun p => p.1 == s)

/-- The loop `for color, c_count in counts.items()` of
`calculate_needed_colors`: extend `needed` by `(4 - c_count)` copies of each
colour counted below 4, and fail (`return None`) at the first colour counted
above 4. -/
def buildNeeded : List (String × Nat) → Option (List String)
  | [] => some []
  | (c, n) :: rest =>
    if n < 4 then (buildNeeded rest).map (fun t => List.replicate (4 - n) c ++ t)
    else if n > 4 then none
    else buildNeeded rest

/-- The shared needed-colour computation.  `validList` is the colour pool the
caller builds from the `Colour` enum: `calculate_needed_colors`
(`src/chroma_oracle/lib/unknown_solver.py`) passes the enum names without
`UNKNOWN`, while `find_all_solutions` (`src/solver/win_strategy.py` lines
111-156) and `solve_mystery` (`src/solver/guess.py` lines 56-106) pass all
enum names; the rest of the code is identical in the three places. -/
def calcNeededFrom (validList : List String) (data : UnknownPuzzleData) :
    Option (List String) :=
  let counts := countsOf data.all_items
  match buildNeeded counts with
  | none => none
  | some needed =>
    let missingSlots : Int :=
      (data.unknown_indices.length : Int) - (needed.length : Int)
    if 0 < missingSlots then
      if missingSlots % 4 = 0 then
        let numNewColors := missingSlots.toNat / 4
        let unusedColors := validList.filter (fun c => !(containsKey counts c))
        if numNewColors ≤ unusedColors.length then
          some (needed ++ (unusedColors.take numNewColors).flatMap
            (fun c => List.replicate 4 c))
        else none
      else none
    else if missingSlots < 0 then none
    else some needed

/-- `calculate_needed_colors(data)` (`src/chroma_oracle/lib/unknown_solver.py`):
`None` models the Python `None` failure value. -/
def calculateNeededColors (data : UnknownPuzzleData) : Option (List String) :=
  calcNeededFrom validColours data

/-- The needed-colour computation inlined in `find_all_solutions`
(`src/solver/win_strategy.py`) and `solve_mystery` (`src/solver/guess.py`):
identical to `calculate_needed_colors` except that its colour pool
`[c.name for c in Colour]` does not exclude `UNKNOWN`. -/
def calculateNeededColorsWS (raw : RawGrid) : Option (List String) :=
  calcNeededFrom validColoursFull (mkUnknownPuzzleData raw)

/-! ### Candidate grid generation -/

/-- Code-point comparison of two character lists, as Python compares the
underlying strings. -/
def strLtAux : List Char → List Char → Bool
  | [], [] => false
  | [], _ :: _ => true
  | _ :: _, [] => false
  | x :: xs, y :: ys =>
    if x < y then true else if y < x then false else strLtAux xs ys

/-- Python `a < b` on strings (lexicographic by code point). -/
def strLtB (a b : String) : Bool := strLtAux a.data b.data

/-- Python `a <= b` on tuples of strings (lexicographic). -/
def lexLeB : List String → List String → Bool
  | [], _ => true
  | _ :: _, [] => false
  | a :: as, b :: bs =>
    if strLtB a b then true else if strLtB b a then false else lexLeB as bs

/-- Python `a < b` on tuples of strings (lexicographic). -/
def lexLtB : List String → List String → Bool
  | [], [] => false
  | [], _ :: _ => true
  | _ :: _, [] => false
  | a :: as, b :: bs =>
    if strLtB a b then true else if strLtB b a then false else lexLtB as bs

/-- `sorted(set(itertools.permutations(needed)))`.  `itertools.permutations`
yields every positional ordering of `needed` (duplicates included); after
`set(...)` only the set of distinct orderings remains, which
`List.permutations'` followed by `dedup` produces as well
(`List.mem_permutations'`).  `sorted` is embedded as an insertion sort by the
Python tuple order `lexLeB`. -/
def uniquePerms (needed : List String) : List (List String) :=
  (needed.permutations'.dedup).insertionSort (fun a b => lexLeB a b = true)

/-- The filling loop
`for idx, (r, c) in enumerate(data.unknown_indices): candidate_grid[r][c] = perm[idx]`;
`none` models the `IndexError` raised when `perm` is shorter than the list of
unknown positions. -/
def fillAux (g : RawGrid) : List (Nat × Nat) → List String → Option RawGrid
  | [], _ => some g
  | _ :: _, [] => none
  | (r, c) :: rest, v :: vs => fillAux (setAt g r c v) rest vs

/-- The accumulation loop of `generate_candidate_grids`: build one result per
element, aborting the whole call on the first failure, as an uncaught Python
exception would. -/
def traverseOption {α β : Type} (f : α → Option β) : List α → Option (List β)
  | [] => some []
  | a :: l =>
    match f a with
    | none => none
    | some b => (traverseOption f l).map (fun r => b :: r)

/-- `generate_candidate_grids(data, needed)`
(`src/chroma_oracle/lib/unknown_solver.py`): one candidate grid per distinct
permutation of `needed`, in sorted order. -/
def generateCandidateGrids (data : UnknownPuzzleData) (needed : List String) :
    Option (List RawGrid) :=
  traverseOption (fun p => fillAux data.raw_grid data.unknown_indices p)
    (uniquePerms needed)

/-! ### Spec-modelled collection construction and move semantics

The repository's `collection.py`, `search.py` and `item.py` for the
`chroma_oracle` package are not in the available sources; the definitions in
this section model their behaviour from the specification (sections 3, 4.1
and 6). -/

/-- Error kinds raised while loading or constructing a state (spec section 7). -/
inductive GridError where
  | invalidColourCount
  | invalidStructure
  | unknownColourName
deriving DecidableEq, Repr

/-- A fully constructed state: one stack of colours per container, bottom of
the stack first. -/
abbrev PuzzleState := List (List Colour)

/-- Modelled from the spec: the colour lookup performed by `Item.__init__`
(missing `item.py`): `"?"` denotes `UNKNOWN`, otherwise the string must be a
member name of the `Colour` enumeration (case-sensitive, spec section 6). -/
def parseColour (s : String) : Option Colour :=
  if s == "?" then some Colour.UNKNOWN
  else colourMembers.find? (fun c => c.name == s)

/-- Modelled from the spec: construction of a `ContainerCollection` from a
raw grid (missing `collection.py`): it fails when a container holds more
than `K = 4` items (`InvalidGridStructure`) or when an entry is neither a
colour name nor an unknown marker (`UnknownColorName`), spec sections 6-7. -/
def mkCollection (content : RawGrid) : Except GridError PuzzleState :=
  if content.all (fun row => decide (row.length ≤ 4)) then
    match traverseOption (fun row => traverseOption parseColour row) content with
    | some st => .ok st
    | none => .error .unknownColourName
  else .error .invalidStructure

/-- A raw grid in the format of spec section 6: containers of at most `K = 4`
entries, each entry a colour name or an unknown marker. -/
def ValidRawGrid (g : RawGrid) : Prop :=
  (∀ row ∈ g, row.length ≤ 4) ∧ ∀ row ∈ g, ∀ s ∈ row, (parseColour s).isSome

/-- Modelled from the spec: the length of the top run of the source container
(spec section 4.1, rule 3): the maximal contiguous suffix of one colour. -/
def topRunLen (l : List Colour) : Nat :=
  match l.reverse with
  | [] => 0
  | c :: rest => (rest.takeWhile (fun x => x == c)).length + 1

/-- Modelled from the spec: legality of a move (spec section 4.1): distinct
in-range indices, non-empty source whose top is not Unknown, destination
empty or matching the source's top colour, and at least one free slot. -/
def isValidMove (st : PuzzleState) (m : Move) : Bool :=
  match st[m.src]?, st[m.dest]? with
  | some src, some dest =>
    decide (m.src ≠ m.dest) &&
    (match src.getLast? with
     | some c =>
       !(c == Colour.UNKNOWN) &&
       (dest.isEmpty || dest.getLast? == some c) &&
       decide (dest.length < 4)
     | none => false)
  | _, _ => false

/-- Modelled from the spec: pour semantics (spec section 4.1): transfer
`min(top run of src, free slots of dest)` items of the source's top colour.
Only applied to legal moves in this development. -/
def applyMove (st : PuzzleState) (m : Move) : PuzzleState :=
  match st[m.src]?, st[m.dest]? with
  | some src, some dest =>
    let t := Nat.min (topRunLen src) (4 - dest.length)
    let c := src.getLast?.getD Colour.UNKNOWN
    let src2 := (src.reverse.drop t).reverse
    let dest2 := dest ++ List.replicate t c
    (st.set m.src src2).set m.dest dest2
  | _, _ => st

/-- `[[item.colour.name for item in c.data] for c in current.data]`: the grid
rendering used by `simulate_moves_on_grid`. -/
def renderGrid (st : PuzzleState) : RawGrid :=
  st.map (fun cont => cont.map Colour.name)

/-- `moves.foldl` application; used to state which state the simulator has
reached after a legal prefix of moves. -/
def stateAfter (st : PuzzleState) (moves : List Move) : PuzzleState :=
  moves.foldl applyMove st

/-- The number of leading moves that apply legally in sequence. -/
def legalCount : PuzzleState → List Move → Nat
  | _, [] => 0
  | st, m :: rest =>
    if isValidMove st m then legalCount (applyMove st m) rest + 1 else 0

/-- The `for i, move in enumerate(moves)` loop of `simulate_moves_on_grid`:
stop at the first move that is not legal (or raises), reporting its index and
the rendered state reached so far. -/
def simLoop : PuzzleState → List Move → Nat → RawGrid × Option Nat
  | st, [], _ => (renderGrid st, none)
  | st, m :: rest, i =>
    if isValidMove st m then simLoop (applyMove st m) rest (i + 1)
    else (renderGrid st, some i)

/-- `simulate_moves_on_grid(grid, moves)`
(`src/chroma_oracle/cli/simulation.py`): an unconstructible grid is an
immediate failure at index 0 with the original grid returned. -/
def simulateMovesOnGrid (grid : RawGrid) (moves : List Move) :
    RawGrid × Option Nat :=
  match mkCollection grid with
  | .error _ => (grid, some 0)
  | .ok st => simLoop st moves 0

/-! ### File loading (`src/solver/lib/json2collection.py`) -/

/-- `load(file, reject_invalid=...)` (`src/solver/lib/json2collection.py`),
on the already-parsed JSON value: with `reject_invalid` every distinct string
occurring in the grid must occur exactly four times, else
`ValueError("Invalid colour count")` is raised before construction. -/
def loadJson (content : RawGrid) (rejectInvalid : Bool) :
    Except GridError PuzzleState :=
  if rejectInvalid then
    let colours := countsOf content.flatten
    if colours.all (fun p => p.2 == 4) then mkCollection content
    else .error .invalidColourCount
  else mkCollection content

/-! ### Per-candidate solving (`solve_all_candidates`) -/

/-- The exception classes caught by the `except` clause of
`solve_all_candidates`; per spec section 4.4 these are the failures
candidate construction and search can raise. -/
inductive PyExc where
  | valueError
  | typeError
  | attributeError
  | keyError
  | indexError
deriving DecidableEq, Repr

/-- `solve_all_candidates(candidate_grids, algorithm)`
(`src/chroma_oracle/lib/unknown_solver.py`).  The construction of the
candidate state and the search (missing `collection.py` / `search.py`) are
abstracted as the parameter `trySolve`: an exception value models a raise
during construction or search, `none` models a search that finds no
solution, and `some moves` a solved candidate. -/
def solveAllCandidates (trySolve : RawGrid → Except PyExc (Option (List Move)))
    (candidateGrids : List RawGrid) : List (RawGrid × List Move) :=
  candidateGrids.foldl
    (fun sols g =>
      match trySolve g with
      | .ok (some mvs) => sols ++ [(g, mvs)]
      | .ok none => sols
      | .error _ => sols)
    []

/-! ### Step matching (`src/solver/match_steps.py`) -/

/-- `_get_first_moves(grid, n, algorithm)` (`src/solver/match_steps.py`).
The search engine (missing `search.py`) is abstracted as the parameter
`solve`, returning the full solution move list as `(src, dest)` pairs, or
`none` when the puzzle has no solution: the function truncates it to the
first `n` moves. -/
def getFirstMoves (solve : RawGrid → Option (List (Nat × Nat)))
    (grid : RawGrid) (n : Nat) : Option (List (Nat × Nat)) :=
  (solve grid).map (fun mvs => mvs.take n)

/-- How `match_first_steps` classifies one candidate file. -/
inductive MatchRes where
  | fullMatch
  | partMatch
  | differs
  | noSol
deriving DecidableEq, Repr

/-- The `for a, b in zip(ref_moves, moves, strict=True)` counting loop of
`match_first_steps`: count agreeing pairs until the first disagreement
(`break`); when every compared pair agrees but the tuples have different
lengths, the strict zip raises `ValueError`, modelled by `Except.error`. -/
def zipCommon : List (Nat × Nat) → List (Nat × Nat) → Except Unit Nat
  | [], [] => .ok 0
  | [], _ :: _ => .error ()
  | _ :: _, [] => .error ()
  | a :: as, b :: bs =>
    if a = b then (zipCommon as bs).map (fun k => k + 1) else .ok 0

/-- The per-file body of the `match_first_steps` loop: solve the candidate,
count the common prefix against the reference moves, and classify as
full match (`common == n`), partial match (`common > 0`) or differing. -/
def classifyFile (solve : RawGrid → Option (List (Nat × Nat)))
    (refMoves : List (Nat × Nat)) (n : Nat) (grid : RawGrid) :
    Except Unit MatchRes :=
  match getFirstMoves solve grid n with
  | none => .ok .noSol
  | some mvs =>
    (zipCommon refMoves mvs).map (fun common =>
      if common = n then .fullMatch
      else if 0 < common then .partMatch
      else .differs)

/-- The folder loop of `match_first_steps`, collecting the file names whose
classification is a full match; an uncaught `ValueError` from the strict zip
aborts the whole loop. -/
def msLoop (solve : RawGrid → Option (List (Nat × Nat)))
    (refMoves : List (Nat × Nat)) (n : Nat) :
    List (String × RawGrid) → Except Unit (List String)
  | [] => .ok []
  | (fname, grid) :: rest =>
    match classifyFile solve refMoves n grid with
    | .error e => .error e
    | .ok res =>
      (msLoop solve refMoves n rest).map
        (fun ms => if res = .fullMatch then fname :: ms else ms)

/-- `match_first_steps(folder, reference_file, n, algorithm)`
(`src/solver/match_steps.py`).  The folder is modelled as the sorted list of
its readable `.json` files with their parsed grids; the search engine is the
parameter `solve`.  The function returns `none` (Python's bare `return`)
when the reference has no solution. -/
def matchFirstSteps (solve : RawGrid → Option (List (Nat × Nat)))
    (folder : List (String × RawGrid)) (refGrid : RawGrid) (n : Nat) :
    Option (Except Unit (List String)) :=
  match getFirstMoves solve refGrid n with
  | none => none
  | some refMoves => some (msLoop solve refMoves n folder)

/-! ### Spec-side definitions (from the claims' words, for comparison) -/

/-- Spec wording: the number of items needed to complete the known colours,
`Σ (4 − n_c)` over known colours counted below 4. -/
def needNum (items : List String) : Nat :=
  (items.dedup.map (fun c => 4 - items.count c)).sum

/-- Spec wording: the colours of the enumeration (Unknown excluded) that do
not appear among the known items, in enumeration order. -/
def specUnused (items : List String) : List String :=
  validColours.filter (fun c => !(items.contains c))

/-- Spec wording: the leftover gap of unknown slots once the known colours
are completed. -/
def specGap (data : UnknownPuzzleData) : Int :=
  (data.unknown_indices.length : Int) - (needNum data.all_items : Int)

/-- Spec wording: the failure condition of claim C2: a colour counted above
4, fewer unknowns than needed completions, a positive gap that is not a
multiple of 4, or fewer unused colours than `gap / 4`. -/
def specFailC2 (data : UnknownPuzzleData) : Prop :=
  (∃ c ∈ data.all_items, 4 < data.all_items.count c) ∨
  ((data.unknown_indices.length : Int) < (needNum data.all_items : Int)) ∨
  (0 < specGap data ∧ specGap data % 4 ≠ 0) ∨
  (0 < specGap data ∧ specGap data % 4 = 0 ∧
    (specUnused data.all_items).length < (specGap data).toNat / 4)

/-- Spec wording: the multiset of needed colours of claim C2: `(4 − n_c)`
copies of each known colour counted below 4, plus four copies of each of the
first `gap / 4` unused colours in enumeration order. -/
def specNeedMultiset (data : UnknownPuzzleData) : Multiset String :=
  (data.all_items.dedup.map
    (fun c => Multiset.replicate (4 - data.all_items.count c) c)).sum +
  (((specUnused data.all_items).take ((specGap data).toNat / 4)).map
    (fun c => Multiset.replicate 4 c)).sum

/-- Spec wording: the length of the agreeing prefix of two truncated move
tuples (used to state what `match_first_steps` computes). -/
def commonPrefixLen (a b : List (Nat × Nat)) : Nat :=
  ((a.zip b).takeWhile (fun q => q.1 == q.2)).length

/-- Row-major order on grid positions: the order in which
`UnknownPuzzleData.__init__` visits them. -/
def rmLt (p q : Nat × Nat) : Prop :=
  p.1 < q.1 ∨ (p.1 = q.1 ∧ p.2 < q.2)

/-! ## Proofs

### Minimum length and the common-prefix loop (claim C1) -/

lemma foldl_min_le_init (x : Nat) (xs : List Nat) : xs.foldl Nat.min x ≤ x := by
  induction xs generalizing x with
  | nil => simp
  | cons y ys ih =>
    calc ys.foldl Nat.min (Nat.min x y) ≤ Nat.min x y := ih _
      _ ≤ x := Nat.min_le_left _ _

lemma foldl_min_le_mem {y : Nat} (x : Nat) {xs : List Nat} (hy : y ∈ xs) :
    xs.foldl Nat.min x ≤ y := by
  induction xs generalizing x with
  | nil => cases hy
  | cons z zs ih =>
    rcases List.mem_cons.mp hy with rfl | hz
    · calc zs.foldl Nat.min (Nat.min x y) ≤ Nat.min x y := foldl_min_le_init _ _
        _ ≤ y := Nat.min_le_right _ _
    · exact ih _ hz

lemma le_foldl_min {n x : Nat} {xs : List Nat} (hx : n ≤ x)
    (h : ∀ y ∈ xs, n ≤ y) : n ≤ xs.foldl Nat.min x := by
  induction xs generalizing x with
  | nil => simpa using hx
  | cons z zs ih =>
    exact ih (Nat.le_min.mpr ⟨hx, h z (by simp)⟩) (fun y hy => h y (by simp [hy]))

lemma minLenList_le {seqs : List (List Move)} {s : List Move} (hs : s ∈ seqs) :
    minLenList (seqs.map List.length) ≤ s.length := by
  cases seqs with
  | nil => cases hs
  | cons a as =>
    simp only [minLenList, List.map_cons]
    rcases List.mem_cons.mp hs with rfl | h
    · exact foldl_min_le_init _ _
    · exact foldl_min_le_mem _ (List.mem_map_of_mem _ h)

lemma le_minLenList {seqs : List (List Move)} {n : Nat} (hne : seqs ≠ [])
    (h : ∀ s ∈ seqs, n ≤ s.length) : n ≤ minLenList (seqs.map List.length) := by
  cases seqs with
  | nil => exact absurd rfl hne
  | cons a as =>
    simp only [minLenList, List.map_cons]
    refine le_foldl_min (h a (by simp)) ?_
    intro y hy
    rcases List.mem_map.mp hy with ⟨s, hsmem, rfl⟩
    exact h s (by simp [hsmem])

lemma prefixLoop_isPrefix (s0 : List Move) (rest : List (List Move)) :
    ∀ fuel i, (∀ s ∈ s0 :: rest, i + fuel ≤ s.length) →
    ∀ s ∈ s0 :: rest, prefixLoop (s0 :: rest) i fuel <+: s.drop i := by
  intro fuel
  induction fuel with
  | zero =>
    intro i _ s _
    simp [prefixLoop, List.nil_prefix]
  | succ fuel ih =>
    intro i hf s hs
    have h0 : i < s0.length := by have := hf s0 (by simp); omega
    have hm : s0[i]? = some s0[i] := List.getElem?_eq_getElem h0
    simp only [prefixLoop, hm]
    by_cases hall : (s0 :: rest).all (fun t => decide (t[i]? = some s0[i])) = true
    · simp only [hall, if_true]
      have hsi : s[i]? = some s0[i] := by
        have := List.all_eq_true.mp hall s hs
        simpa using this
      have hlen : i < s.length := by have := hf s hs; omega
      have hsv : s[i] = s0[i] := by
        have := List.getElem?_eq_getElem hlen
        rw [this] at hsi
        exact Option.some.inj hsi
      rw [List.drop_eq_getElem_cons hlen, hsv, List.cons_prefix_cons]
      exact ⟨rfl, ih (i + 1) (fun t ht => by have := hf t ht; omega) s hs⟩
    · simp only [hall]
      simp [List.nil_prefix]

lemma prefixLoop_longest (s0 : List Move) (rest : List (List Move)) :
    ∀ fuel i (Q : List Move), (∀ s ∈ s0 :: rest, Q <+: s.drop i) →
    Q.length ≤ fuel → Q.length ≤ (prefixLoop (s0 :: rest) i fuel).length := by
  intro fuel
  induction fuel with
  | zero =>
    intro i Q _ h
    have : Q.length ≤ 0 := h
    omega
  | succ fuel ih =>
    intro i Q hQ hlen
    cases Q with
    | nil => simp
    | cons q Q2 =>
      have hqi : ∀ s ∈ s0 :: rest, s[i]? = some q ∧ Q2 <+: s.drop (i + 1) := by
        intro s hs
        obtain ⟨t, ht⟩ := hQ s hs
        have hdropi : s.drop i = q :: (Q2 ++ t) := by rw [← ht]; simp
        constructor
        · have h1 : (s.drop i)[0]? = some q := by rw [hdropi]; simp
          rw [List.getElem?_drop] at h1
          simpa using h1
        · refine ⟨t, ?_⟩
          have h1 : (s.drop i).drop 1 = s.drop (i + 1) := by
            rw [List.drop_drop]
          rw [← h1, hdropi]
          simp
      have h0 := (hqi s0 (by simp)).1
      simp only [prefixLoop, h0]
      have hall : (s0 :: rest).all (fun t => decide (t[i]? = some q)) = true := by
        rw [List.all_eq_true]
        intro t ht
        simpa using (hqi t ht).1
      simp only [hall, if_true, List.length_cons, Nat.succ_le_succ_iff]
      exact ih (i + 1) Q2 (fun s hs => (hqi s hs).2) (by simpa using hlen)

/-- C1: for every non-empty list of solutions, `find_common_prefix` returns
the longest move sequence `P` such that every solution's move sequence starts
with `P` (moves compared by their `(src, dest)` pair): `P` is a prefix of
every solution's moves, and any common prefix is at most as long as `P`.
The concrete Scenario F instance is checked in the witness. -/
theorem find_common_prefix_correct (solutions : List (RawGrid × List Move))
    (hne : solutions ≠ []) :
    (∀ s ∈ solutions, findCommonPrefix solutions <+: s.2) ∧
    (∀ Q : List Move, (∀ s ∈ solutions, Q <+: s.2) →
      Q.length ≤ (findCommonPrefix solutions).length) := by
  cases solutions with
  | nil => exact absurd rfl hne
  | cons x xs =>
    simp only [findCommonPrefix, List.map_cons]
    constructor
    · intro s hs
      have hpre := prefixLoop_isPrefix x.2 (xs.map Prod.snd)
        (minLenList ((x.2 :: xs.map Prod.snd).map List.length)) 0
        (fun t ht => by
          have := @minLenList_le (x.2 :: xs.map Prod.snd) t ht
          omega)
        s.2
        (by
          rcases List.mem_cons.mp hs with rfl | h
          · simp
          · exact List.mem_cons_of_mem _ (List.mem_map_of_mem _ h))
      rwa [List.drop_zero] at hpre
    · intro Q hQ
      have hQ2 : ∀ t ∈ x.2 :: xs.map Prod.snd, Q <+: t.drop 0 := by
        intro t ht
        rw [List.drop_zero]
        rcases List.mem_cons.mp ht with rfl | h
        · exact hQ x (by simp)
        · rcases List.mem_map.mp h with ⟨s, hsmem, rfl⟩
          exact hQ s (by simp [hsmem])
      exact prefixLoop_longest x.2 (xs.map Prod.snd) _ 0 Q hQ2
        (le_minLenList (by simp)
          (fun t ht => ((hQ2 t ht).length_le).trans (by rw [List.drop_zero])))

/-- Witness for C1 at the Scenario F input: the common prefix of
`[(0,3),(1,2),(0,1)]` and `[(0,3),(1,2),(2,4)]` is `[(0,3),(1,2)]`, and it is
a prefix of both solutions. -/
theorem find_common_prefix_correct_witness :
    findCommonPrefix
        [(([] : RawGrid), [Move.mk 0 3, Move.mk 1 2, Move.mk 0 1]),
         (([] : RawGrid), [Move.mk 0 3, Move.mk 1 2, Move.mk 2 4])] =
      [Move.mk 0 3, Move.mk 1 2] ∧
    (∀ s ∈ [(([] : RawGrid), [Move.mk 0 3, Move.mk 1 2, Move.mk 0 1]),
            (([] : RawGrid), [Move.mk 0 3, Move.mk 1 2, Move.mk 2 4])],
      findCommonPrefix
          [(([] : RawGrid), [Move.mk 0 3, Move.mk 1 2, Move.mk 0 1]),
           (([] : RawGrid), [Move.mk 0 3, Move.mk 1 2, Move.mk 2 4])] <+: s.2) :=
  ⟨by decide,
   (find_common_prefix_correct _ (by decide)).1⟩

/-! ### Counting lemmas (claims C2, C3, C6) -/

lemma lookupCount_incCount (cs : List (String × Nat)) (s t : String) :
    lookupCount (incCount cs s) t =
      if s = t then lookupCount cs t + 1 else lookupCount cs t := by
  induction cs with
  | nil =>
    by_cases h : s = t <;> simp [incCount, lookupCount, h]
  | cons p rest ih =>
    obtain ⟨k, n⟩ := p
    by_cases hks : k = s
    · subst hks
      by_cases hkt : k = t <;> simp [incCount, lookupCount, hkt]
    · by_cases hkt : k = t
      · have hst : ¬ s = t := fun h => hks (hkt.trans h.symm)
        have hts : ¬ t = s := fun h => hst h.symm
        subst hkt
        simp [incCount, lookupCount, hts, hst]
      · simp [incCount, lookupCount, hks, hkt, ih]

lemma mem_keys_incCount (cs : List (String × Nat)) (s t : String) :
    t ∈ (incCount cs s).map Prod.fst ↔ t ∈ cs.map Prod.fst ∨ t = s := by
  induction cs with
  | nil => simp [incCount, eq_comm]
  | cons p rest ih =>
    obtain ⟨k, n⟩ := p
    by_cases hks : k = s
    · subst hks
      have hstep : incCount ((k, n) :: rest) k = (k, n + 1) :: rest := by
        simp [incCount]
      rw [hstep]
      simp only [List.map_cons, List.mem_cons]
      tauto
    · simp only [incCount, if_neg hks, List.map_cons, List.mem_cons, ih]
      tauto

lemma nodup_keys_incCount (cs : List (String × Nat)) (s : String)
    (h : (cs.map Prod.fst).Nodup) : ((incCount cs s).map Prod.fst).Nodup := by
  induction cs with
  | nil => simp [incCount]
  | cons p rest ih =>
    obtain ⟨k, n⟩ := p
    simp only [List.map_cons, List.nodup_cons] at h
    by_cases hks : k = s
    · subst hks
      simpa [incCount] using h
    · simp only [incCount, if_neg hks, List.map_cons, List.nodup_cons]
      refine ⟨?_, ih h.2⟩
      rw [mem_keys_incCount]
      push_neg
      exact ⟨h.1, hks⟩

lemma lookupCount_foldl (l : List String) (cs : List (String × Nat)) (t : String) :
    lookupCount (l.foldl incCount cs) t = lookupCount cs t + l.count t := by
  induction l generalizing cs with
  | nil => simp
  | cons x xs ih =>
    rw [List.foldl_cons, ih, lookupCount_incCount]
    by_cases hxt : x = t
    · subst hxt
      simp [List.count_cons]
      omega
    · have : ¬ (t == x) = true := by simpa using fun h => hxt h.symm
      simp [List.count_cons, hxt, this]

lemma mem_keys_foldl (l : List String) (cs : List (String × Nat)) (t : String) :
    t ∈ ((l.foldl incCount cs).map Prod.fst) ↔ t ∈ cs.map Prod.fst ∨ t ∈ l := by
  induction l generalizing cs with
  | nil => simp
  | cons x xs ih =>
    rw [List.foldl_cons, ih, mem_keys_incCount]
    simp only [List.mem_cons]
    tauto

lemma nodup_keys_foldl (l : List String) (cs : List (String × Nat))
    (h : (cs.map Prod.fst).Nodup) : ((l.foldl incCount cs).map Prod.fst).Nodup := by
  induction l generalizing cs with
  | nil => exact h
  | cons x xs ih => exact ih _ (nodup_keys_incCount _ _ h)

lemma lookupCount_countsOf (l : List String) (t : String) :
    lookupCount (countsOf l) t = l.count t := by
  simpa [countsOf, lookupCount] using lookupCount_foldl l [] t

lemma mem_keys_countsOf (l : List String) (t : String) :
    t ∈ (countsOf l).map Prod.fst ↔ t ∈ l := by
  simpa [countsOf] using mem_keys_foldl l [] t

lemma nodup_keys_countsOf (l : List String) :
    ((countsOf l).map Prod.fst).Nodup := by
  exact nodup_keys_foldl l [] (by simp)

lemma lookup_of_nodup_keys {cs : List (String × Nat)}
    (h : (cs.map Prod.fst).Nodup) {p : String × Nat} (hp : p ∈ cs) :
    lookupCount cs p.1 = p.2 := by
  induction cs with
  | nil => cases hp
  | cons q rest ih =>
    obtain ⟨k, n⟩ := q
    simp only [List.map_cons, List.nodup_cons] at h
    rcases List.mem_cons.mp hp with rfl | hmem
    · simp [lookupCount]
    · have hk : k ≠ p.1 := by
        intro hk
        exact h.1 (hk ▸ List.mem_map_of_mem Prod.fst hmem)
      simp only [lookupCount, if_neg hk]
      exact ih h.2 hmem

lemma countsOf_entry {l : List String} {p : String × Nat} (hp : p ∈ countsOf l) :
    p.2 = l.count p.1 ∧ p.1 ∈ l := by
  have h1 := lookup_of_nodup_keys (nodup_keys_countsOf l) hp
  rw [lookupCount_countsOf] at h1
  exact ⟨h1.symm, (mem_keys_countsOf l p.1).mp (List.mem_map_of_mem Prod.fst hp)⟩

lemma containsKey_countsOf (l : List String) (t : String) :
    containsKey (countsOf l) t = l.contains t := by
  rw [Bool.eq_iff_iff]
  constructor
  · intro h
    rcases List.any_eq_true.mp h with ⟨p, hp, he⟩
    have : p.1 = t := by simpa using he
    have hmem : t ∈ l := this ▸ (countsOf_entry hp).2
    simpa using hmem
  · intro h
    have hl : t ∈ l := by simpa using h
    have ht : t ∈ (countsOf l).map Prod.fst := (mem_keys_countsOf l t).mpr hl
    rcases List.mem_map.mp ht with ⟨p, hp, hfst⟩
    exact List.any_eq_true.mpr ⟨p, hp, by simp [hfst]⟩

lemma countsOf_perm (l : List String) :
    (countsOf l).Perm (l.dedup.map (fun c => (c, l.count c))) := by
  have hnd1 : (countsOf l).Nodup := by
    have := nodup_keys_countsOf l
    exact this.of_map Prod.fst
  have hnd2 : (l.dedup.map (fun c => (c, l.count c))).Nodup := by
    refine List.Nodup.map ?_ (List.nodup_dedup l)
    intro a b hab
    exact congrArg Prod.fst hab
  rw [List.perm_ext_iff_of_nodup hnd1 hnd2]
  intro p
  constructor
  · intro hp
    obtain ⟨hcount, hmem⟩ := countsOf_entry hp
    refine List.mem_map.mpr ⟨p.1, (List.mem_dedup).mpr hmem, ?_⟩
    obtain ⟨a, b⟩ := p
    simp only at hcount
    simp [hcount]
  · intro hp
    rcases List.mem_map.mp hp with ⟨c, hc, rfl⟩
    have hcl : c ∈ l := List.mem_dedup.mp hc
    have hkey : c ∈ (countsOf l).map Prod.fst := (mem_keys_countsOf l c).mpr hcl
    rcases List.mem_map.mp hkey with ⟨q, hq, hfst⟩
    have := lookup_of_nodup_keys (nodup_keys_countsOf l) hq
    rw [hfst, lookupCount_countsOf] at this
    have : q = (c, l.count c) := by
      obtain ⟨a, b⟩ := q
      simp only at hfst this
      simp [hfst, ← this]
    exact this ▸ hq

/-! ### The needed-colour computation (claims C2, C3) -/

lemma buildNeeded_eq_none_iff (cs : List (String × Nat)) :
    buildNeeded cs = none ↔ ∃ p ∈ cs, 4 < p.2 := by
  induction cs with
  | nil => simp [buildNeeded]
  | cons p rest ih =>
    obtain ⟨c, n⟩ := p
    by_cases h1 : n < 4
    · simp only [buildNeeded, if_pos h1, Option.map_eq_none', ih]
      constructor
      · rintro ⟨q, hq, h⟩
        exact ⟨q, List.mem_cons_of_mem _ hq, h⟩
      · rintro ⟨q, hq, h⟩
        rcases List.mem_cons.mp hq with rfl | hq2
        · simp only at h
          omega
        · exact ⟨q, hq2, h⟩
    · by_cases h2 : n > 4
      · simp only [buildNeeded, if_neg h1, if_pos h2]
        constructor
        · intro _
          exact ⟨(c, n), by simp, h2⟩
        · intro _
          trivial
      · have h3 : n = 4 := by omega
        subst h3
        simp only [buildNeeded, if_neg h1, if_neg h2, ih]
        constructor
        · rintro ⟨q, hq, h⟩
          exact ⟨q, List.mem_cons_of_mem _ hq, h⟩
        · rintro ⟨q, hq, h⟩
          rcases List.mem_cons.mp hq with rfl | hq2
          · simp only at h
            omega
          · exact ⟨q, hq2, h⟩

lemma buildNeeded_eq_some (cs : List (String × Nat)) (h : ∀ p ∈ cs, p.2 ≤ 4) :
    buildNeeded cs =
      some (cs.flatMap (fun p => List.replicate (4 - p.2) p.1)) := by
  induction cs with
  | nil => simp [buildNeeded]
  | cons p rest ih =>
    obtain ⟨c, n⟩ := p
    have hn : n ≤ 4 := h (c, n) (by simp)
    have hrest := ih (fun q hq => h q (List.mem_cons_of_mem _ hq))
    by_cases h1 : n < 4
    · simp [buildNeeded, if_pos h1, hrest, List.flatMap_cons]
    · have h4 : n = 4 := by omega
      subst h4
      simp [buildNeeded, hrest, List.flatMap_cons]

lemma coe_flatMap_multiset (l : List (String × Nat))
    (g : String × Nat → List String) :
    (↑(l.flatMap g) : Multiset String) =
      (l.map (fun p => (↑(g p) : Multiset String))).sum := by
  induction l with
  | nil => simp
  | cons a as ih =>
    rw [List.flatMap_cons, List.map_cons, List.sum_cons, ← ih, ← Multiset.coe_add]

lemma coe_flatMap_multiset_str (l : List String) (g : String → List String) :
    (↑(l.flatMap g) : Multiset String) =
      (l.map (fun c => (↑(g c) : Multiset String))).sum := by
  induction l with
  | nil => simp
  | cons a as ih =>
    rw [List.flatMap_cons, List.map_cons, List.sum_cons, ← ih, ← Multiset.coe_add]

lemma buildNeeded_countsOf {l : List String} (h : ∀ c ∈ l, l.count c ≤ 4) :
    ∃ needed, buildNeeded (countsOf l) = some needed ∧
      needed.length = needNum l ∧
      (↑needed : Multiset String) =
        (l.dedup.map (fun c => Multiset.replicate (4 - l.count c) c)).sum := by
  have hcs : ∀ p ∈ countsOf l, p.2 ≤ 4 := by
    intro p hp
    obtain ⟨hc, hm⟩ := countsOf_entry hp
    rw [hc]
    exact h _ hm
  have hperm := countsOf_perm l
  refine ⟨_, buildNeeded_eq_some _ hcs, ?_, ?_⟩
  · have hp2 := hperm.flatMap_right (fun p => List.replicate (4 - p.2) p.1)
    rw [hp2.length_eq, List.flatMap_map, List.length_flatMap]
    simp [needNum, Function.comp_def, List.map_map]
  · rw [coe_flatMap_multiset]
    rw [(hperm.map (fun p => (↑(List.replicate (4 - p.2) p.1) : Multiset String))).sum_eq]
    refine congrArg List.sum ?_
    rw [List.map_map]
    refine List.map_congr_left ?_
    intro c _
    simp [Function.comp, Multiset.coe_replicate]

lemma calcNeededFrom_eq (vl : List String) (data : UnknownPuzzleData) :
    calcNeededFrom vl data =
      match buildNeeded (countsOf data.all_items) with
      | none => none
      | some needed =>
        if 0 < ((data.unknown_indices.length : Int) - (needed.length : Int)) then
          if ((data.unknown_indices.length : Int) - (needed.length : Int)) % 4 = 0 then
            if ((data.unknown_indices.length : Int) -
                  (needed.length : Int)).toNat / 4 ≤
                (vl.filter (fun c => !(containsKey (countsOf data.all_items) c))).length then
              some (needed ++
                ((vl.filter (fun c => !(containsKey (countsOf data.all_items) c))).take
                  (((data.unknown_indices.length : Int) -
                    (needed.length : Int)).toNat / 4)).flatMap
                  (fun c => List.replicate 4 c))
            else none
          else none
        else if ((data.unknown_indices.length : Int) - (needed.length : Int)) < 0 then
          none
        else some needed := rfl

lemma calcNeededFrom_none_case {vl : List String} {data : UnknownPuzzleData}
    (hbn : buildNeeded (countsOf data.all_items) = none) :
    calcNeededFrom vl data = none := by
  rw [calcNeededFrom_eq, hbn]

lemma calcNeededFrom_some_case {vl : List String} {data : UnknownPuzzleData}
    {needed0 : List String}
    (hbn : buildNeeded (countsOf data.all_items) = some needed0) :
    calcNeededFrom vl data =
      if 0 < ((data.unknown_indices.length : Int) - (needed0.length : Int)) then
        if ((data.unknown_indices.length : Int) - (needed0.length : Int)) % 4 = 0 then
          if ((data.unknown_indices.length : Int) -
                (needed0.length : Int)).toNat / 4 ≤
              (vl.filter (fun c => !(containsKey (countsOf data.all_items) c))).length then
            some (needed0 ++
              ((vl.filter (fun c => !(containsKey (countsOf data.all_items) c))).take
                (((data.unknown_indices.length : Int) -
                  (needed0.length : Int)).toNat / 4)).flatMap
                (fun c => List.replicate 4 c))
          else none
        else none
      else if ((data.unknown_indices.length : Int) - (needed0.length : Int)) < 0 then
        none
      else some needed0 := by
  rw [calcNeededFrom_eq, hbn]

lemma length_flatMap_replicate4 (l : List String) :
    (l.flatMap (fun c => List.replicate 4 c)).length = 4 * l.length := by
  induction l with
  | nil => simp
  | cons a as ih =>
    simp only [List.flatMap_cons, List.length_append, List.length_replicate,
      List.length_cons, ih]
    omega

lemma calcNeededFrom_length {vl : List String} {data : UnknownPuzzleData}
    {needed : List String} (h : calcNeededFrom vl data = some needed) :
    needed.length = data.unknown_indices.length := by
  cases hbn : buildNeeded (countsOf data.all_items) with
  | none =>
    rw [calcNeededFrom_none_case hbn] at h
    cases h
  | some needed0 =>
    rw [calcNeededFrom_some_case hbn] at h
    split_ifs at h with h1 h2 h3 h4
    · have he := Option.some.inj h
      subst he
      rw [List.length_append, length_flatMap_replicate4, List.length_take]
      omega
    all_goals try cases h
    all_goals omega

lemma buildNeeded_subset {cs : List (String × Nat)} {x : List String}
    (h : buildNeeded cs = some x) : ∀ c ∈ x, ∃ p ∈ cs, p.1 = c := by
  induction cs generalizing x with
  | nil =>
    simp only [buildNeeded, Option.some.injEq] at h
    subst h
    intro c hc
    cases hc
  | cons p rest ih =>
    obtain ⟨k, n⟩ := p
    by_cases h1 : n < 4
    · simp only [buildNeeded, if_pos h1, Option.map_eq_some'] at h
      obtain ⟨t, ht, rfl⟩ := h
      intro c hc
      rcases List.mem_append.mp hc with hrep | hmem
      · have : c = k := List.eq_of_mem_replicate hrep
        exact ⟨(k, n), by simp, by simp [this]⟩
      · obtain ⟨q, hq, hqc⟩ := ih ht c hmem
        exact ⟨q, List.mem_cons_of_mem _ hq, hqc⟩
    · by_cases h2 : n > 4
      · simp [buildNeeded, if_neg h1, if_pos h2] at h
      · simp only [buildNeeded, if_neg h1, if_neg h2] at h
        intro c hc
        obtain ⟨q, hq, hqc⟩ := ih h c hc
        exact ⟨q, List.mem_cons_of_mem _ hq, hqc⟩

lemma calcNeededFrom_mem {vl : List String} {data : UnknownPuzzleData}
    {needed : List String} (h : calcNeededFrom vl data = some needed) :
    ∀ c ∈ needed, c ∈ data.all_items ∨ c ∈ vl := by
  have hkey : ∀ needed0, buildNeeded (countsOf data.all_items) = some needed0 →
      ∀ c ∈ needed0, c ∈ data.all_items := by
    intro needed0 hbn c hc
    obtain ⟨p, hp, rfl⟩ := buildNeeded_subset hbn c hc
    exact (countsOf_entry hp).2
  cases hbn : buildNeeded (countsOf data.all_items) with
  | none =>
    rw [calcNeededFrom_none_case hbn] at h
    cases h
  | some needed0 =>
    rw [calcNeededFrom_some_case hbn] at h
    split_ifs at h with h1 h2 h3 h4
    · have he := Option.some.inj h
      subst he
      intro c hc
      rcases List.mem_append.mp hc with hc0 | hcx
      · exact Or.inl (hkey needed0 hbn c hc0)
      · rcases List.mem_flatMap.mp hcx with ⟨c2, hc2, hrep⟩
        have : c = c2 := List.eq_of_mem_replicate hrep
        subst this
        have hfil := List.mem_of_mem_take hc2
        exact Or.inr (List.mem_of_mem_filter hfil)
    all_goals try cases h
    all_goals exact fun c hc => Or.inl (hkey needed hbn c hc)

lemma calculateNeededColors_def (data : UnknownPuzzleData) :
    calculateNeededColors data = calcNeededFrom validColours data := rfl

lemma specUnused_eq (l : List String) :
    validColours.filter (fun c => !(containsKey (countsOf l) c)) = specUnused l := by
  refine List.filter_congr ?_
  intro c _
  rw [containsKey_countsOf]

/-- C2: `calculate_needed_colors` fails exactly when some known colour is
counted above 4, or the unknowns are fewer than the completions the known
colours need, or the positive leftover gap is not a multiple of 4, or fewer
unused colours exist than `gap / 4`; on success the returned list is, as a
multiset, `(4 − n_c)` copies of each under-counted known colour plus four
copies of each of the first `gap / 4` unused colours in enumeration order. -/
theorem calculate_needed_colors_correct (data : UnknownPuzzleData) :
    (calculateNeededColors data = none ↔ specFailC2 data) ∧
    (∀ needed, calculateNeededColors data = some needed →
      (↑needed : Multiset String) = specNeedMultiset data) := by
  by_cases hover : ∃ c ∈ data.all_items, 4 < data.all_items.count c
  · have hbn : buildNeeded (countsOf data.all_items) = none := by
      rw [buildNeeded_eq_none_iff]
      obtain ⟨c, hcl, hcc⟩ := hover
      have hk : c ∈ (countsOf data.all_items).map Prod.fst :=
        (mem_keys_countsOf _ c).mpr hcl
      rcases List.mem_map.mp hk with ⟨p, hp, hpc⟩
      refine ⟨p, hp, ?_⟩
      rw [(countsOf_entry hp).1, hpc]
      exact hcc
    have hnone : calculateNeededColors data = none := by
      rw [calculateNeededColors_def]
      exact calcNeededFrom_none_case hbn
    refine ⟨⟨fun _ => Or.inl hover, fun _ => hnone⟩, ?_⟩
    intro needed hsome
    rw [hnone] at hsome
    cases hsome
  · push_neg at hover
    obtain ⟨needed0, hbn, hlen0, hms0⟩ := buildNeeded_countsOf hover
    have hcalc := @calcNeededFrom_some_case validColours data needed0 hbn
    rw [specUnused_eq] at hcalc
    have hgap : specGap data =
        (data.unknown_indices.length : Int) - (needed0.length : Int) := by
      rw [specGap, hlen0]
    have hnofail1 : ¬ ∃ c ∈ data.all_items, 4 < data.all_items.count c := by
      push_neg
      exact hover
    by_cases hc1 : 0 < ((data.unknown_indices.length : Int) - (needed0.length : Int))
    · by_cases hc2 :
          ((data.unknown_indices.length : Int) - (needed0.length : Int)) % 4 = 0
      · by_cases hc3 :
            ((data.unknown_indices.length : Int) -
              (needed0.length : Int)).toNat / 4 ≤ (specUnused data.all_items).length
        · have hval : calculateNeededColors data =
              some (needed0 ++
                ((specUnused data.all_items).take
                  (((data.unknown_indices.length : Int) -
                    (needed0.length : Int)).toNat / 4)).flatMap
                  (fun c => List.replicate 4 c)) := by
            rw [calculateNeededColors_def, hcalc, if_pos hc1, if_pos hc2, if_pos hc3]
          refine ⟨⟨fun hnone => ?_, fun hfail => ?_⟩, fun needed hsome => ?_⟩
          · rw [hval] at hnone
            cases hnone
          · exfalso
            rcases hfail with h | h | h | h
            · exact hnofail1 h
            · omega
            · rw [hgap] at h
              omega
            · rw [hgap] at h
              omega
          · rw [hval] at hsome
            have he := Option.some.inj hsome
            subst he
            rw [specNeedMultiset, ← Multiset.coe_add, ← hms0]
            congr 1
            rw [coe_flatMap_multiset_str, hgap]
            refine congrArg List.sum (List.map_congr_left ?_)
            intro c _
            exact Multiset.coe_replicate 4 c
        · have hval : calculateNeededColors data = none := by
            rw [calculateNeededColors_def, hcalc, if_pos hc1, if_pos hc2, if_neg hc3]
          refine ⟨⟨fun _ => ?_, fun _ => hval⟩, fun needed hsome => ?_⟩
          · refine Or.inr (Or.inr (Or.inr ?_))
            rw [hgap]
            exact ⟨hc1, hc2, by omega⟩
          · rw [hval] at hsome
            cases hsome
      · have hval : calculateNeededColors data = none := by
          rw [calculateNeededColors_def, hcalc, if_pos hc1, if_neg hc2]
        refine ⟨⟨fun _ => ?_, fun _ => hval⟩, fun needed hsome => ?_⟩
        · refine Or.inr (Or.inr (Or.inl ?_))
          rw [hgap]
          exact ⟨hc1, hc2⟩
        · rw [hval] at hsome
          cases hsome
    · by_cases hc4 : ((data.unknown_indices.length : Int) - (needed0.length : Int)) < 0
      · have hval : calculateNeededColors data = none := by
          rw [calculateNeededColors_def, hcalc, if_neg hc1, if_pos hc4]
        refine ⟨⟨fun _ => ?_, fun _ => hval⟩, fun needed hsome => ?_⟩
        · refine Or.inr (Or.inl ?_)
          omega
        · rw [hval] at hsome
          cases hsome
      · have hval : calculateNeededColors data = some needed0 := by
          rw [calculateNeededColors_def, hcalc, if_neg hc1, if_neg hc4]
        refine ⟨⟨fun hnone => ?_, fun hfail => ?_⟩, fun needed hsome => ?_⟩
        · rw [hval] at hnone
          cases hnone
        · exfalso
          rcases hfail with h | h | h | h
          · exact hnofail1 h
          · omega
          · rw [hgap] at h
            omega
          · rw [hgap] at h
            omega
        · rw [hval] at hsome
          have he := Option.some.inj hsome
          subst he
          have hzero : specGap data = 0 := by omega
          rw [specNeedMultiset, hzero]
          simp only [Int.toNat_zero, Nat.zero_div, List.take_zero, List.map_nil,
            List.sum_nil, add_zero]
          exact hms0

/-- Witness for C2 at the Scenario E grid
`[["?","?","RED","RED"], ["BLUE","BLUE","BLUE","BLUE"], []]`: the needed
multiset is exactly two copies of RED. -/
theorem calculate_needed_colors_correct_witness :
    (↑(["RED", "RED"] : List String) : Multiset String) =
      specNeedMultiset (mkUnknownPuzzleData
        [["?", "?", "RED", "RED"], ["BLUE", "BLUE", "BLUE", "BLUE"], []]) :=
  (calculate_needed_colors_correct
      (mkUnknownPuzzleData
        [["?", "?", "RED", "RED"], ["BLUE", "BLUE", "BLUE", "BLUE"], []])).2
    ["RED", "RED"] (by decide)

/-! ### Grid scanning lemmas (claims C3, C4, C5, C10) -/

lemma forall₂_imp_mem {α β : Type} {R S : α → β → Prop} :
    ∀ {l : List α} {v : List β}, List.Forall₂ R l v →
    (∀ a b, a ∈ l → R a b → S a b) → List.Forall₂ S l v := by
  intro l v h
  induction h with
  | nil => intro _; exact List.Forall₂.nil
  | cons hr _ ih =>
    intro himp
    exact List.Forall₂.cons (himp _ _ (by simp) hr)
      (ih (fun a b ha hr2 => himp a b (List.mem_cons_of_mem _ ha) hr2))

lemma forall₂_right_unique {α β : Type} {R : α → β → Prop}
    (hfun : ∀ a b c, R a b → R a c → b = c) :
    ∀ {l : List α} {v1 v2 : List β}, List.Forall₂ R l v1 →
      List.Forall₂ R l v2 → v1 = v2 := by
  intro l
  induction l with
  | nil =>
    intro v1 v2 h1 h2
    rw [List.forall₂_nil_left_iff.mp h1, List.forall₂_nil_left_iff.mp h2]
  | cons a as ih =>
    intro v1 v2 h1 h2
    cases h1 with
    | cons hr1 ht1 =>
      cases h2 with
      | cons hr2 ht2 =>
        rw [hfun _ _ _ hr1 hr2, ih ht1 ht2]

lemma getEntry_cons_zero (row : List String) (g : RawGrid) (c : Nat) :
    getEntry (row :: g) 0 c = row[c]? := by
  simp [getEntry]

lemma getEntry_cons_succ (row : List String) (g : RawGrid) (r c : Nat) :
    getEntry (row :: g) (r + 1) c = getEntry g r c := by
  simp [getEntry]

lemma scanRowAux_spec (r : Nat) (row : List String) : ∀ c0 : Nat,
    (∀ s ∈ (scanRowAux r c0 row).1, isUnknownStr s = false) ∧
    (∀ p ∈ (scanRowAux r c0 row).2, p.1 = r ∧ c0 ≤ p.2) ∧
    (scanRowAux r c0 row).2.Pairwise (fun p q => p.2 < q.2) ∧
    ∃ vals : List String,
      List.Forall₂
        (fun (p : Nat × Nat) (v : String) =>
          row[p.2 - c0]? = some v ∧ isUnknownStr v = true)
        (scanRowAux r c0 row).2 vals ∧
      (↑row : Multiset String) = ↑(scanRowAux r c0 row).1 + ↑vals := by
  induction row with
  | nil =>
    intro c0
    refine ⟨?_, ?_, ?_, [], ?_, ?_⟩ <;> simp [scanRowAux]
  | cons s rest ih =>
    intro c0
    obtain ⟨ih1, ih2, ih3, vals', ih4, ih5⟩ := ih (c0 + 1)
    by_cases hu : isUnknownStr s = true
    · have hstep : scanRowAux r c0 (s :: rest) =
          ((scanRowAux r (c0 + 1) rest).1,
            (r, c0) :: (scanRowAux r (c0 + 1) rest).2) := by
        simp [scanRowAux, hu]
      rw [hstep]
      dsimp only
      refine ⟨ih1, ?_, ?_, s :: vals', ?_, ?_⟩
      · intro p hp
        rcases List.mem_cons.mp hp with rfl | hp2
        · exact ⟨rfl, le_refl _⟩
        · obtain ⟨h1, h2⟩ := ih2 p hp2
          exact ⟨h1, by omega⟩
      · rw [List.pairwise_cons]
        refine ⟨?_, ih3⟩
        intro p hp
        have := (ih2 p hp).2
        simp only
        omega
      · refine List.Forall₂.cons ⟨by simp, hu⟩ ?_
        refine forall₂_imp_mem ih4 ?_
        intro p v hp hr
        obtain ⟨hp1, hp2⟩ := ih2 p hp
        refine ⟨?_, hr.2⟩
        have hidx : p.2 - c0 = (p.2 - (c0 + 1)) + 1 := by omega
        rw [hidx]
        simpa using hr.1
      · have h1 : (↑(s :: rest) : Multiset String) = s ::ₘ ↑rest := rfl
        have h2 : (↑(s :: vals') : Multiset String) = s ::ₘ ↑vals' := rfl
        rw [h1, h2, ih5, ← Multiset.singleton_add, ← Multiset.singleton_add]
        abel
    · have hu' : isUnknownStr s = false := by
        simpa using hu
      have hstep : scanRowAux r c0 (s :: rest) =
          (s :: (scanRowAux r (c0 + 1) rest).1,
            (scanRowAux r (c0 + 1) rest).2) := by
        simp [scanRowAux, hu']
      rw [hstep]
      dsimp only
      refine ⟨?_, ?_, ih3, vals', ?_, ?_⟩
      · intro t ht
        rcases List.mem_cons.mp ht with rfl | ht2
        · exact hu'
        · exact ih1 t ht2
      · intro p hp
        obtain ⟨h1, h2⟩ := ih2 p hp
        exact ⟨h1, by omega⟩
      · refine forall₂_imp_mem ih4 ?_
        intro p v hp hr
        obtain ⟨hp1, hp2⟩ := ih2 p hp
        refine ⟨?_, hr.2⟩
        have hidx : p.2 - c0 = (p.2 - (c0 + 1)) + 1 := by omega
        rw [hidx]
        simpa using hr.1
      · have h1 : (↑(s :: rest) : Multiset String) = s ::ₘ ↑rest := rfl
        have h2 : (↑(s :: (scanRowAux r (c0 + 1) rest).1) : Multiset String) =
            s ::ₘ ↑(scanRowAux r (c0 + 1) rest).1 := rfl
        rw [h1, h2, ih5, ← Multiset.singleton_add, ← Multiset.singleton_add]
        abel

lemma scanAux_spec (g : RawGrid) : ∀ r : Nat,
    (∀ s ∈ (scanAux r g).1, isUnknownStr s = false) ∧
    (∀ p ∈ (scanAux r g).2, r ≤ p.1) ∧
    (scanAux r g).2.Pairwise rmLt ∧
    ∃ vals : List String,
      List.Forall₂
        (fun (p : Nat × Nat) (v : String) =>
          getEntry g (p.1 - r) p.2 = some v ∧ isUnknownStr v = true)
        (scanAux r g).2 vals ∧
      (↑g.flatten : Multiset String) = ↑(scanAux r g).1 + ↑vals := by
  induction g with
  | nil =>
    intro r
    refine ⟨?_, ?_, ?_, [], ?_, ?_⟩ <;> simp [scanAux]
  | cons row rest ih =>
    intro r
    obtain ⟨row1, row2, row3, vals1, row4, row5⟩ := scanRowAux_spec r row 0
    obtain ⟨ih1, ih2, ih3, vals2, ih4, ih5⟩ := ih (r + 1)
    have hstep : scanAux r (row :: rest) =
        ((scanRowAux r 0 row).1 ++ (scanAux (r + 1) rest).1,
          (scanRowAux r 0 row).2 ++ (scanAux (r + 1) rest).2) := by
      simp [scanAux]
    rw [hstep]
    dsimp only
    refine ⟨?_, ?_, ?_, vals1 ++ vals2, ?_, ?_⟩
    · intro s hs
      rcases List.mem_append.mp hs with h | h
      · exact row1 s h
      · exact ih1 s h
    · intro p hp
      rcases List.mem_append.mp hp with h | h
      · exact (row2 p h).1 ▸ le_refl _
      · exact le_trans (by omega) (ih2 p h)
    · rw [List.pairwise_append]
      refine ⟨?_, ih3, ?_⟩
      · refine List.Pairwise.imp_of_mem ?_ row3
        intro p q hp hq hlt
        exact Or.inr ⟨by rw [(row2 p hp).1, (row2 q hq).1], hlt⟩
      · intro p hp q hq
        have h1 := (row2 p hp).1
        have h2 := ih2 q hq
        exact Or.inl (by omega)
    · refine List.rel_append ?_ ?_
      · refine forall₂_imp_mem row4 ?_
        intro p v hp hr
        have h1 := (row2 p hp).1
        have h2 : p.1 - r = 0 := by omega
        rw [h2, getEntry_cons_zero]
        have h3 : p.2 - 0 = p.2 := by omega
        rw [h3] at hr
        exact hr
      · refine forall₂_imp_mem ih4 ?_
        intro p v hp hr
        have h1 := ih2 p hp
        have h2 : p.1 - r = (p.1 - (r + 1)) + 1 := by omega
        rw [h2, getEntry_cons_succ]
        exact hr
    · rw [List.flatten_cons, ← Multiset.coe_add, row5, ih5,
        ← Multiset.coe_add, ← Multiset.coe_add]
      abel

lemma mk_all_items_known (raw : RawGrid) :
    ∀ s ∈ (mkUnknownPuzzleData raw).all_items, isUnknownStr s = false :=
  (scanAux_spec raw 0).1

lemma mk_unknown_indices_nodup (raw : RawGrid) :
    (mkUnknownPuzzleData raw).unknown_indices.Nodup := by
  have hpw : (mkUnknownPuzzleData raw).unknown_indices.Pairwise rmLt :=
    (scanAux_spec raw 0).2.2.1
  refine hpw.imp ?_
  intro p q h he
  subst he
  rcases h with h | ⟨_, h⟩ <;> omega

lemma mk_unknown_vals (raw : RawGrid) :
    ∃ vals : List String,
      List.Forall₂
        (fun (p : Nat × Nat) (v : String) =>
          getEntry raw p.1 p.2 = some v ∧ isUnknownStr v = true)
        (mkUnknownPuzzleData raw).unknown_indices vals ∧
      (↑raw.flatten : Multiset String) =
        ↑(mkUnknownPuzzleData raw).all_items + ↑vals := by
  obtain ⟨vals, h4, h5⟩ := (scanAux_spec raw 0).2.2.2
  refine ⟨vals, ?_, h5⟩
  refine forall₂_imp_mem h4 ?_
  intro p v _ hr
  simpa using hr

/-! ### Grid update lemmas -/

lemma getEntry_eq_some {g : RawGrid} {r c : Nat} {w : String}
    (h : getEntry g r c = some w) :
    ∃ row, g[r]? = some row ∧ row[c]? = some w := by
  unfold getEntry at h
  cases hrow : g[r]? with
  | none =>
    rw [hrow] at h
    cases h
  | some row =>
    rw [hrow] at h
    exact ⟨row, rfl, by simpa using h⟩

lemma getEntry_setAt_same {g : RawGrid} {r c : Nat} {w : String} (v : String)
    (h : getEntry g r c = some w) :
    getEntry (setAt g r c v) r c = some v := by
  obtain ⟨row, hrow, hcell⟩ := getEntry_eq_some h
  have hr : r < g.length := (List.getElem?_eq_some_iff.mp hrow).1
  have hc : c < row.length := (List.getElem?_eq_some_iff.mp hcell).1
  unfold setAt getEntry
  rw [hrow]
  simp only [Option.getD_some]
  rw [List.getElem?_set_self hr]
  simp only [Option.some_bind]
  exact List.getElem?_set_self hc

lemma getEntry_setAt_other {g : RawGrid} {r0 c0 r c : Nat} (v : String)
    (h : (r0, c0) ≠ (r, c)) :
    getEntry (setAt g r0 c0 v) r c = getEntry g r c := by
  by_cases hr : r0 = r
  · subst hr
    have hc : c0 ≠ c := by
      intro he
      exact h (by rw [he])
    unfold setAt getEntry
    cases hrow : g[r0]? with
    | none =>
      have hlen : g.length ≤ r0 := by
        by_contra hlt
        rw [List.getElem?_eq_getElem (by omega)] at hrow
        cases hrow
      rw [List.set_eq_of_length_le hlen, hrow]
    | some row =>
      simp only [Option.getD_some]
      have hr0 : r0 < g.length := (List.getElem?_eq_some_iff.mp hrow).1
      rw [List.getElem?_set_self hr0]
      simp only [Option.some_bind]
      exact List.getElem?_set_ne hc
  · unfold setAt getEntry
    rw [List.getElem?_set_ne hr]

lemma getEntry_setAt_isSome {g : RawGrid} {r0 c0 r c : Nat} (v : String)
    (h : ∃ w, getEntry g r c = some w) :
    ∃ w, getEntry (setAt g r0 c0 v) r c = some w := by
  by_cases he : (r0, c0) = (r, c)
  · obtain ⟨w, hw⟩ := h
    have h1 : r0 = r := congrArg Prod.fst he
    have h2 : c0 = c := congrArg Prod.snd he
    subst h1
    subst h2
    exact ⟨v, getEntry_setAt_same v hw⟩
  · rw [getEntry_setAt_other v he]
    exact h

lemma set_row_multiset {row : List String} : ∀ {c : Nat} {w : String} (v : String),
    row[c]? = some w →
    (↑(row.set c v) : Multiset String) + {w} = ↑row + {v} := by
  induction row with
  | nil =>
    intro c w v h
    cases h
  | cons a t ih =>
    intro c w v h
    cases c with
    | zero =>
      have ha : a = w := by simpa using h
      subst ha
      show (↑(v :: t) : Multiset String) + {a} = ↑(a :: t) + {v}
      have h1 : (↑(v :: t) : Multiset String) = v ::ₘ ↑t := rfl
      have h2 : (↑(a :: t) : Multiset String) = a ::ₘ ↑t := rfl
      rw [h1, h2, ← Multiset.singleton_add, ← Multiset.singleton_add]
      abel
    | succ c2 =>
      have h2 : t[c2]? = some w := by simpa using h
      have hrec := ih v h2
      show (↑(a :: t.set c2 v) : Multiset String) + {w} = ↑(a :: t) + {v}
      have e1 : (↑(a :: t.set c2 v) : Multiset String) = a ::ₘ ↑(t.set c2 v) := rfl
      have e2 : (↑(a :: t) : Multiset String) = a ::ₘ ↑t := rfl
      rw [e1, e2, ← Multiset.singleton_add, ← Multiset.singleton_add,
        add_assoc, hrec]
      abel

lemma set_grid_multiset {g : RawGrid} :
    ∀ {r : Nat} {row : List String} (nr : List String),
    g[r]? = some row →
    (↑(g.set r nr).flatten : Multiset String) + ↑row = ↑g.flatten + ↑nr := by
  induction g with
  | nil =>
    intro r row nr h
    cases h
  | cons a t ih =>
    intro r row nr h
    cases r with
    | zero =>
      have ha : a = row := by simpa using h
      subst ha
      show (↑(nr :: t).flatten : Multiset String) + ↑a = ↑((a :: t).flatten) + ↑nr
      rw [List.flatten_cons, List.flatten_cons, ← Multiset.coe_add,
        ← Multiset.coe_add]
      abel
    | succ r2 =>
      have h2 : t[r2]? = some row := by simpa using h
      have hrec := ih nr h2
      show (↑((a :: t.set r2 nr).flatten) : Multiset String) + ↑row =
        ↑((a :: t).flatten) + ↑nr
      rw [List.flatten_cons, List.flatten_cons, ← Multiset.coe_add,
        ← Multiset.coe_add, add_assoc, hrec]
      abel

lemma setAt_multiset {g : RawGrid} {r c : Nat} {w : String} (v : String)
    (h : getEntry g r c = some w) :
    (↑(setAt g r c v).flatten : Multiset String) + {w} = ↑g.flatten + {v} := by
  obtain ⟨row, hrow, hcell⟩ := getEntry_eq_some h
  have e1 : setAt g r c v = g.set r (row.set c v) := by
    unfold setAt
    rw [hrow]
    rfl
  rw [e1]
  have h1 := set_grid_multiset (row.set c v) hrow
  have h2 := set_row_multiset v hcell
  have key : (↑(g.set r (row.set c v)).flatten + {w} : Multiset String) + ↑row =
      (↑g.flatten + {v}) + ↑row := by
    calc (↑(g.set r (row.set c v)).flatten + {w} : Multiset String) + ↑row
        = (↑(g.set r (row.set c v)).flatten + ↑row) + {w} := by abel
      _ = (↑g.flatten + ↑(row.set c v)) + {w} := by rw [h1]
      _ = ↑g.flatten + (↑(row.set c v) + {w}) := by abel
      _ = ↑g.flatten + (↑row + {v}) := by rw [h2]
      _ = (↑g.flatten + {v}) + ↑row := by abel
  exact add_right_cancel key

/-! ### Fill lemmas -/

lemma fillAux_spec : ∀ (idxs : List (Nat × Nat)) (perm : List String)
    (g g' : RawGrid),
    fillAux g idxs perm = some g' →
    idxs.Nodup →
    (∀ p ∈ idxs, ∃ w, getEntry g p.1 p.2 = some w) →
    (∀ r c, (r, c) ∉ idxs → getEntry g' r c = getEntry g r c) ∧
    List.Forall₂ (fun (p : Nat × Nat) v => getEntry g' p.1 p.2 = some v) idxs
      (perm.take idxs.length) := by
  intro idxs
  induction idxs with
  | nil =>
    intro perm g g' hf _ _
    have hg : g = g' := by simpa [fillAux] using hf
    subst hg
    exact ⟨fun _ _ _ => rfl, by simp⟩
  | cons p0 rest ih =>
    obtain ⟨r0, c0⟩ := p0
    intro perm g g' hf hnd hin
    cases perm with
    | nil => simp [fillAux] at hf
    | cons v vs =>
      have hf2 : fillAux (setAt g r0 c0 v) rest vs = some g' := by
        simpa [fillAux] using hf
      have hnd2 : rest.Nodup := (List.nodup_cons.mp hnd).2
      have hhead : (r0, c0) ∉ rest := (List.nodup_cons.mp hnd).1
      obtain ⟨w0, hw0⟩ := hin (r0, c0) (by simp)
      have hin2 : ∀ p ∈ rest, ∃ w, getEntry (setAt g r0 c0 v) p.1 p.2 = some w := by
        intro p hp
        have hne : (r0, c0) ≠ (p.1, p.2) := by
          intro he
          exact hhead (by rwa [he])
        rw [getEntry_setAt_other v hne]
        exact hin p (List.mem_cons_of_mem _ hp)
      obtain ⟨hframe, hforall⟩ := ih vs (setAt g r0 c0 v) g' hf2 hnd2 hin2
      constructor
      · intro r c hrc
        have h1 : (r, c) ∉ rest := fun hh => hrc (List.mem_cons_of_mem _ hh)
        have h2 : (r0, c0) ≠ (r, c) := fun he => hrc (by rw [← he]; simp)
        rw [hframe r c h1, getEntry_setAt_other v h2]
      · refine List.Forall₂.cons ?_ ?_
        · rw [hframe r0 c0 hhead]
          exact getEntry_setAt_same v hw0
        · simpa using hforall

lemma fillAux_inj {idxs : List (Nat × Nat)} {g : RawGrid}
    {p1 p2 : List String} {g' : RawGrid}
    (h1 : fillAux g idxs p1 = some g') (h2 : fillAux g idxs p2 = some g')
    (hnd : idxs.Nodup)
    (hin : ∀ p ∈ idxs, ∃ w, getEntry g p.1 p.2 = some w)
    (hl1 : p1.length = idxs.length) (hl2 : p2.length = idxs.length) :
    p1 = p2 := by
  have hA := (fillAux_spec idxs p1 g g' h1 hnd hin).2
  have hB := (fillAux_spec idxs p2 g g' h2 hnd hin).2
  have hfun : ∀ (p : Nat × Nat) (b c : String),
      getEntry g' p.1 p.2 = some b → getEntry g' p.1 p.2 = some c → b = c := by
    intro p b c hb hc
    rw [hb] at hc
    exact Option.some.inj hc
  have heq := forall₂_right_unique hfun hA hB
  have e1 : List.take idxs.length p1 = p1 := by
    rw [← hl1]
    exact List.take_length p1
  have e2 : List.take idxs.length p2 = p2 := by
    rw [← hl2]
    exact List.take_length p2
  rw [e1, e2] at heq
  exact heq

lemma fillAux_multiset : ∀ (idxs : List (Nat × Nat)) (perm : List String)
    (g g' : RawGrid) (vals : List String),
    fillAux g idxs perm = some g' →
    idxs.Nodup →
    List.Forall₂ (fun (p : Nat × Nat) v => getEntry g p.1 p.2 = some v) idxs vals →
    (↑g'.flatten : Multiset String) + ↑vals =
      ↑g.flatten + ↑(perm.take idxs.length) := by
  intro idxs
  induction idxs with
  | nil =>
    intro perm g g' vals hf _ hval
    have hg : g = g' := by simpa [fillAux] using hf
    subst hg
    have hv : vals = [] := List.forall₂_nil_left_iff.mp hval
    subst hv
    simp
  | cons p0 rest ih =>
    obtain ⟨r0, c0⟩ := p0
    intro perm g g' vals hf hnd hval
    cases perm with
    | nil => simp [fillAux] at hf
    | cons v vs =>
      obtain ⟨w, ws, hw, hws, rfl⟩ := List.forall₂_cons_left_iff.mp hval
      have hf2 : fillAux (setAt g r0 c0 v) rest vs = some g' := by
        simpa [fillAux] using hf
      have hhead : (r0, c0) ∉ rest := (List.nodup_cons.mp hnd).1
      have hws2 : List.Forall₂
          (fun (p : Nat × Nat) b => getEntry (setAt g r0 c0 v) p.1 p.2 = some b)
          rest ws := by
        refine forall₂_imp_mem hws ?_
        intro p b hp hr
        have hne : (r0, c0) ≠ (p.1, p.2) := by
          intro he
          exact hhead (by rwa [he])
        rw [getEntry_setAt_other v hne]
        exact hr
      have hIH := ih vs (setAt g r0 c0 v) g' ws hf2 (List.nodup_cons.mp hnd).2 hws2
      have hset := setAt_multiset v hw
      have ec1 : (↑(w :: ws) : Multiset String) = {w} + ↑ws := by
        rw [Multiset.singleton_add, Multiset.cons_coe]
      have ec2 : ((v :: vs).take (rest.length + 1)) = v :: vs.take rest.length := rfl
      have ec3 : (↑(v :: vs.take rest.length) : Multiset String) =
          {v} + ↑(vs.take rest.length) := by
        rw [Multiset.singleton_add, Multiset.cons_coe]
      calc (↑g'.flatten : Multiset String) + ↑(w :: ws)
          = (↑g'.flatten + ↑ws) + {w} := by rw [ec1]; abel
        _ = (↑(setAt g r0 c0 v).flatten + ↑(vs.take rest.length)) + {w} := by
            rw [hIH]
        _ = (↑(setAt g r0 c0 v).flatten + {w}) + ↑(vs.take rest.length) := by abel
        _ = (↑g.flatten + {v}) + ↑(vs.take rest.length) := by rw [hset]
        _ = ↑g.flatten + ↑((v :: vs).take (rest.length + 1)) := by
            rw [ec2, ec3]
            abel

/-! ### Order lemmas for the permutation sort (claim C4) -/

lemma strLtAux_asymm : ∀ (x y : List Char),
    strLtAux x y = true → strLtAux y x = false := by
  intro x
  induction x with
  | nil =>
    intro y h
    cases y with
    | nil => simp [strLtAux] at h
    | cons b bs => simp [strLtAux]
  | cons a as ih =>
    intro y h
    cases y with
    | nil => simp [strLtAux] at h
    | cons b bs =>
      simp only [strLtAux] at h ⊢
      by_cases h1 : a < b
      · have h2 : ¬ b < a := lt_asymm h1
        simp [h1, h2]
      · by_cases h2 : b < a
        · simp [h1, h2] at h
        · simp only [h1, h2, if_false] at h ⊢
          exact ih bs h

lemma strLtAux_eq_of_not : ∀ (x y : List Char),
    strLtAux x y = false → strLtAux y x = false → x = y := by
  intro x
  induction x with
  | nil =>
    intro y h1 _
    cases y with
    | nil => rfl
    | cons b bs => simp [strLtAux] at h1
  | cons a as ih =>
    intro y h1 h2
    cases y with
    | nil => simp [strLtAux] at h2
    | cons b bs =>
      simp only [strLtAux] at h1 h2
      by_cases hab : a < b
      · simp [hab] at h1
      · by_cases hba : b < a
        · simp [hab, hba] at h2
        · have hb : a = b := le_antisymm (not_lt.mp hba) (not_lt.mp hab)
          subst hb
          simp only [lt_irrefl, if_false] at h1 h2
          rw [ih bs h1 h2]

lemma strLtAux_trans : ∀ (x y z : List Char),
    strLtAux x y = true → strLtAux y z = true → strLtAux x z = true := by
  intro x
  induction x with
  | nil =>
    intro y z h1 h2
    cases y with
    | nil => simp [strLtAux] at h1
    | cons b bs =>
      cases z with
      | nil => simp [strLtAux] at h2
      | cons c cs => simp [strLtAux]
  | cons a as ih =>
    intro y z h1 h2
    cases y with
    | nil => simp [strLtAux] at h1
    | cons b bs =>
      cases z with
      | nil => simp [strLtAux] at h2
      | cons c cs =>
        simp only [strLtAux] at h1 h2 ⊢
        by_cases hab : a < b
        · by_cases hbc : b < c
          · have hac : a < c := lt_trans hab hbc
            simp [hac]
          · by_cases hcb : c < b
            · simp [hbc, hcb] at h2
            · have he : b = c := le_antisymm (not_lt.mp hcb) (not_lt.mp hbc)
              subst he
              simp [hab]
        · by_cases hba : b < a
          · simp [hab, hba] at h1
          · have he : a = b := le_antisymm (not_lt.mp hba) (not_lt.mp hab)
            subst he
            by_cases hac : a < c
            · simp [hac]
            · by_cases hca : c < a
              · simp [hac, hca] at h2
              · simp only [lt_irrefl, hac, hca, if_false] at h1 h2 ⊢
                exact ih bs cs h1 h2

lemma strLtB_asymm {a b : String} (h : strLtB a b = true) : strLtB b a = false :=
  strLtAux_asymm _ _ h

lemma strLtB_eq {a b : String} (h1 : strLtB a b = false)
    (h2 : strLtB b a = false) : a = b := by
  have hd := strLtAux_eq_of_not _ _ h1 h2
  cases a
  cases b
  exact congrArg String.mk hd

lemma strLtB_trans {a b c : String} (h1 : strLtB a b = true)
    (h2 : strLtB b c = true) : strLtB a c = true :=
  strLtAux_trans _ _ _ h1 h2

lemma lexLeB_total : ∀ (x y : List String),
    lexLeB x y = true ∨ lexLeB y x = true := by
  intro x
  induction x with
  | nil => intro y; exact Or.inl rfl
  | cons a as ih =>
    intro y
    cases y with
    | nil => exact Or.inr rfl
    | cons b bs =>
      simp only [lexLeB]
      by_cases hab : strLtB a b = true
      · have hba : strLtB b a = false := strLtB_asymm hab
        simp [hab, hba]
      · by_cases hba : strLtB b a = true
        · have hab2 : strLtB a b = false := strLtB_asymm hba
          simp [hab2, hba]
        · have h1 : strLtB a b = false := by simpa using hab
          have h2 : strLtB b a = false := by simpa using hba
          simp only [h1, h2, if_false]
          exact ih bs

lemma lexLeB_trans : ∀ (x y z : List String),
    lexLeB x y = true → lexLeB y z = true → lexLeB x z = true := by
  intro x
  induction x with
  | nil => intro y z _ _; rfl
  | cons a as ih =>
    intro y z h1 h2
    cases y with
    | nil => simp [lexLeB] at h1
    | cons b bs =>
      cases z with
      | nil => simp [lexLeB] at h2
      | cons c cs =>
        simp only [lexLeB] at h1 h2 ⊢
        by_cases hab : strLtB a b = true
        · by_cases hbc : strLtB b c = true
          · simp [strLtB_trans hab hbc]
          · by_cases hcb : strLtB c b = true
            · simp [hbc, hcb] at h2
            · have he : b = c := strLtB_eq (by simpa using hbc) (by simpa using hcb)
              subst he
              simp [hab]
        · by_cases hba : strLtB b a = true
          · simp [hab, hba] at h1
          · have he : a = b := strLtB_eq (by simpa using hab) (by simpa using hba)
            subst he
            by_cases hac : strLtB a c = true
            · simp [hac]
            · by_cases hca : strLtB c a = true
              · simp [hac, hca] at h2
              · have e1 : strLtB a a = false := by simpa using hab
                simp only [e1, if_false] at h1 h2 ⊢
                have e2 : strLtB a c = false := by simpa using hac
                have e3 : strLtB c a = false := by simpa using hca
                simp only [e2, e3, if_false] at h2 ⊢
                exact ih bs cs h1 h2

lemma lexLtB_of_le_of_ne : ∀ (x y : List String),
    lexLeB x y = true → x ≠ y → lexLtB x y = true := by
  intro x
  induction x with
  | nil =>
    intro y _ hne
    cases y with
    | nil => exact absurd rfl hne
    | cons b bs => rfl
  | cons a as ih =>
    intro y hle hne
    cases y with
    | nil => simp [lexLeB] at hle
    | cons b bs =>
      simp only [lexLeB] at hle
      simp only [lexLtB]
      by_cases hab : strLtB a b = true
      · simp [hab]
      · by_cases hba : strLtB b a = true
        · simp [hab, hba] at hle
        · have he : a = b := strLtB_eq (by simpa using hab) (by simpa using hba)
          subst he
          have e1 : strLtB a a = false := by simpa using hab
          simp only [e1, if_false] at hle ⊢
          refine ih bs hle ?_
          intro he2
          exact hne (by rw [he2])

/-! ### Unique permutation lemmas (claims C3, C4, C5, C10) -/

lemma mem_uniquePerms {needed p : List String} :
    p ∈ uniquePerms needed ↔ p.Perm needed := by
  unfold uniquePerms
  rw [(List.perm_insertionSort _ _).mem_iff, List.mem_dedup, List.mem_permutations']

lemma nodup_uniquePerms (needed : List String) : (uniquePerms needed).Nodup := by
  unfold uniquePerms
  exact (List.perm_insertionSort _ _).nodup_iff.mpr (List.nodup_dedup _)

lemma sorted_uniquePerms (needed : List String) :
    (uniquePerms needed).Pairwise (fun a b => lexLtB a b = true) := by
  have hs : List.Sorted (fun a b : List String => lexLeB a b = true)
      (uniquePerms needed) := by
    unfold uniquePerms
    haveI : IsTotal (List String) (fun a b => lexLeB a b = true) := ⟨lexLeB_total⟩
    haveI : IsTrans (List String) (fun a b => lexLeB a b = true) :=
      ⟨lexLeB_trans⟩
    exact List.sorted_insertionSort _ _
  have hnd := nodup_uniquePerms needed
  have hand := List.Pairwise.and hs hnd
  refine hand.imp ?_
  rintro a b ⟨hle, hne⟩
  exact lexLtB_of_le_of_ne a b hle hne

lemma traverseOption_eq_some_iff {α β : Type} (f : α → Option β) :
    ∀ (l : List α) (r : List β),
    traverseOption f l = some r ↔ List.Forall₂ (fun a b => f a = some b) l r := by
  intro l
  induction l with
  | nil =>
    intro r
    constructor
    · intro h
      have : r = [] := by simpa [traverseOption] using h.symm
      subst this
      exact List.Forall₂.nil
    · intro h
      rw [List.forall₂_nil_left_iff.mp h]
      rfl
  | cons a as ih =>
    intro r
    constructor
    · intro h
      cases hfa : f a with
      | none => simp [traverseOption, hfa] at h
      | some b =>
        simp only [traverseOption, hfa, Option.map_eq_some'] at h
        obtain ⟨r2, hr2, rfl⟩ := h
        exact List.Forall₂.cons hfa ((ih r2).mp hr2)
    · intro h
      obtain ⟨b, r2, hfa, hr2, rfl⟩ := List.forall₂_cons_left_iff.mp h
      simp only [traverseOption, hfa, Option.map_eq_some']
      exact ⟨r2, (ih r2).mpr hr2, rfl⟩

lemma forall₂_mem_left {α β : Type} {R : α → β → Prop} :
    ∀ {l : List α} {v : List β}, List.Forall₂ R l v →
    ∀ a ∈ l, ∃ b ∈ v, R a b := by
  intro l v h
  induction h with
  | nil => intro a ha; cases ha
  | cons h₁ _ ih =>
    intro a ha
    rcases List.mem_cons.mp ha with rfl | ha2
    · exact ⟨_, by simp, h₁⟩
    · obtain ⟨b, hb, hr⟩ := ih a ha2
      exact ⟨b, List.mem_cons_of_mem _ hb, hr⟩

lemma forall₂_mem_right {α β : Type} {R : α → β → Prop} :
    ∀ {l : List α} {v : List β}, List.Forall₂ R l v →
    ∀ b ∈ v, ∃ a ∈ l, R a b := by
  intro l v h
  induction h with
  | nil => intro b hb; cases hb
  | cons h₁ _ ih =>
    intro b hb
    rcases List.mem_cons.mp hb with rfl | hb2
    · exact ⟨_, by simp, h₁⟩
    · obtain ⟨a, ha, hr⟩ := ih b hb2
      exact ⟨a, List.mem_cons_of_mem _ ha, hr⟩

lemma nodup_of_forall₂_inj {α β : Type} {R : α → β → Prop} :
    ∀ {l : List α} {v : List β}, List.Forall₂ R l v → l.Nodup →
    (∀ a a' b, a ∈ l → a' ∈ l → R a b → R a' b → a = a') → v.Nodup := by
  intro l v h
  induction h with
  | nil => intro _ _; exact List.nodup_nil
  | @cons a b l₁ l₂ h₁ h₂ ih =>
    intro hnd hinj
    rw [List.nodup_cons] at hnd ⊢
    refine ⟨?_, ih hnd.2 (fun x x' y hx hx' =>
      hinj x x' y (List.mem_cons_of_mem _ hx) (List.mem_cons_of_mem _ hx'))⟩
    intro hbv
    obtain ⟨a', ha', hR⟩ := forall₂_mem_right h₂ b hbv
    have he : a = a' := hinj a a' b (by simp) (List.mem_cons_of_mem _ ha') h₁ hR
    exact hnd.1 (he ▸ ha')

lemma fillAux_isSome : ∀ (idxs : List (Nat × Nat)) (perm : List String)
    (g : RawGrid), idxs.length ≤ perm.length →
    ∃ g', fillAux g idxs perm = some g' := by
  intro idxs
  induction idxs with
  | nil => intro perm g _; exact ⟨g, rfl⟩
  | cons p0 rest ih =>
    obtain ⟨r0, c0⟩ := p0
    intro perm g hle
    cases perm with
    | nil => simp at hle
    | cons v vs =>
      obtain ⟨g', hg'⟩ := ih vs (setAt g r0 c0 v) (by simpa using hle)
      exact ⟨g', by simpa [fillAux] using hg'⟩

lemma traverseOption_total {α β : Type} {f : α → Option β} :
    ∀ {l : List α}, (∀ a ∈ l, ∃ b, f a = some b) →
    ∃ r, traverseOption f l = some r := by
  intro l
  induction l with
  | nil => intro _; exact ⟨[], rfl⟩
  | cons a as ih =>
    intro h
    obtain ⟨b, hb⟩ := h a (by simp)
    obtain ⟨r, hr⟩ := ih (fun x hx => h x (List.mem_cons_of_mem _ hx))
    exact ⟨b :: r, by simp [traverseOption, hb, hr]⟩

lemma mk_unknown_inrange (raw : RawGrid) :
    ∀ p ∈ (mkUnknownPuzzleData raw).unknown_indices,
      ∃ w, getEntry raw p.1 p.2 = some w := by
  obtain ⟨vals, hfa, _⟩ := mk_unknown_vals raw
  intro p hp
  obtain ⟨v, _, hr⟩ := forall₂_mem_left hfa p hp
  exact ⟨v, hr.1⟩

/-- C4 counterexample: for the raw grid `[["?","RED","RED","RED"]]` (one
unknown position) and the needed list `["BLUE","BLUE","RED"]` (longer than
the unknown positions), `generate_candidate_grids` returns the same grid
twice: the output is not in one-to-one correspondence with the distinct
permutations and contains duplicates. -/
theorem generate_candidate_grids_cex :
    generateCandidateGrids (mkUnknownPuzzleData [["?", "RED", "RED", "RED"]])
        ["BLUE", "BLUE", "RED"] =
      some [[["BLUE", "RED", "RED", "RED"]], [["BLUE", "RED", "RED", "RED"]],
        [["RED", "RED", "RED", "RED"]]] ∧
    ¬ ([[["BLUE", "RED", "RED", "RED"]], [["BLUE", "RED", "RED", "RED"]],
        [["RED", "RED", "RED", "RED"]]] : List RawGrid).Nodup := by
  constructor
  · decide
  · decide

/-- C4 (amended): when the needed list has exactly as many entries as there
are unknown positions, `generate_candidate_grids` succeeds and its output is
in one-to-one correspondence (no duplicate grids) with the distinct
permutations of the needed multiset, emitted in ascending lexicographic order
of the filling permutation. -/
theorem generate_candidate_grids_amended (raw : RawGrid) (needed : List String)
    (hlen : needed.length = (mkUnknownPuzzleData raw).unknown_indices.length) :
    ∃ gs ps, generateCandidateGrids (mkUnknownPuzzleData raw) needed = some gs ∧
      (∀ p, p ∈ ps ↔ p.Perm needed) ∧
      ps.Pairwise (fun a b => lexLtB a b = true) ∧
      List.Forall₂
        (fun p g => fillAux raw (mkUnknownPuzzleData raw).unknown_indices p =
          some g) ps gs ∧
      gs.Nodup := by
  have hin := mk_unknown_inrange raw
  have hnd := mk_unknown_indices_nodup raw
  have hplen : ∀ p ∈ uniquePerms needed,
      p.length = (mkUnknownPuzzleData raw).unknown_indices.length := by
    intro p hp
    rw [(mem_uniquePerms.mp hp).length_eq, hlen]
  obtain ⟨gs, hgs⟩ := @traverseOption_total (List String) RawGrid
    (fun p => fillAux raw (mkUnknownPuzzleData raw).unknown_indices p)
    (uniquePerms needed)
    (fun p hp => fillAux_isSome _ p raw (by rw [hplen p hp]))
  have hfa := (traverseOption_eq_some_iff _ _ _).mp hgs
  refine ⟨gs, uniquePerms needed, hgs, fun p => mem_uniquePerms,
    sorted_uniquePerms needed, hfa, ?_⟩
  refine nodup_of_forall₂_inj hfa (nodup_uniquePerms needed) ?_
  intro p1 p2 g hp1 hp2 hf1 hf2
  exact fillAux_inj hf1 hf2 hnd hin (hplen p1 hp1) (hplen p2 hp2)

/-- Witness for the amended C4 at the Scenario E grid with
`needed = ["RED","RED"]` (two unknown positions). -/
theorem generate_candidate_grids_amended_witness :
    (["RED", "RED"] : List String).length =
      (mkUnknownPuzzleData
        [["?", "?", "RED", "RED"], ["BLUE", "BLUE", "BLUE", "BLUE"],
          []]).unknown_indices.length ∧
    ∃ gs ps,
      generateCandidateGrids
          (mkUnknownPuzzleData
            [["?", "?", "RED", "RED"], ["BLUE", "BLUE", "BLUE", "BLUE"], []])
          ["RED", "RED"] = some gs ∧
      (∀ p, p ∈ ps ↔ p.Perm ["RED", "RED"]) ∧
      ps.Pairwise (fun a b => lexLtB a b = true) ∧
      List.Forall₂
        (fun p g => fillAux
          [["?", "?", "RED", "RED"], ["BLUE", "BLUE", "BLUE", "BLUE"], []]
          (mkUnknownPuzzleData
            [["?", "?", "RED", "RED"], ["BLUE", "BLUE", "BLUE", "BLUE"],
              []]).unknown_indices p = some g) ps gs ∧
      gs.Nodup :=
  ⟨by decide,
   generate_candidate_grids_amended
     [["?", "?", "RED", "RED"], ["BLUE", "BLUE", "BLUE", "BLUE"], []]
     ["RED", "RED"] (by decide)⟩

/-- C5: when the needed list has exactly as many entries as there are unknown
positions, every candidate grid's multiset of entries equals the multiset of
known items of the raw grid plus the needed multiset. -/
theorem generate_candidate_grids_multiset (raw : RawGrid) (needed : List String)
    (hlen : needed.length = (mkUnknownPuzzleData raw).unknown_indices.length)
    (gs : List RawGrid) (g : RawGrid)
    (hgs : generateCandidateGrids (mkUnknownPuzzleData raw) needed = some gs)
    (hg : g ∈ gs) :
    (↑g.flatten : Multiset String) =
      ↑(mkUnknownPuzzleData raw).all_items + ↑needed := by
  have hfa := (traverseOption_eq_some_iff _ _ _).mp hgs
  obtain ⟨p, hp, hfill⟩ := forall₂_mem_right hfa g hg
  have hperm : p.Perm needed := mem_uniquePerms.mp hp
  have hplen : p.length = (mkUnknownPuzzleData raw).unknown_indices.length := by
    rw [hperm.length_eq, hlen]
  obtain ⟨vals, hvals, hflat⟩ := mk_unknown_vals raw
  have hvals2 : List.Forall₂
      (fun (q : Nat × Nat) v => getEntry raw q.1 q.2 = some v)
      (mkUnknownPuzzleData raw).unknown_indices vals :=
    forall₂_imp_mem hvals (fun _ _ _ hr => hr.1)
  have hnd := mk_unknown_indices_nodup raw
  have hmulti := fillAux_multiset (mkUnknownPuzzleData raw).unknown_indices p
    raw g vals hfill hnd hvals2
  rw [show p.take (mkUnknownPuzzleData raw).unknown_indices.length = p by
      rw [← hplen]; exact List.take_length p] at hmulti
  rw [hflat] at hmulti
  have hcoe : (↑p : Multiset String) = ↑needed := Multiset.coe_eq_coe.mpr hperm
  have key : (↑g.flatten : Multiset String) + ↑vals =
      (↑(mkUnknownPuzzleData raw).all_items + ↑needed) + ↑vals := by
    rw [hmulti, ← hcoe]
    abel
  exact add_right_cancel key

/-- Witness for C5 at the Scenario E grid: the single candidate's entries are
the known items plus two REDs. -/
theorem generate_candidate_grids_multiset_witness :
    (↑([["RED", "RED", "RED", "RED"], ["BLUE", "BLUE", "BLUE", "BLUE"],
        []] : RawGrid).flatten : Multiset String) =
      ↑(mkUnknownPuzzleData
        [["?", "?", "RED", "RED"], ["BLUE", "BLUE", "BLUE", "BLUE"],
          []]).all_items + ↑(["RED", "RED"] : List String) :=
  generate_candidate_grids_multiset
    [["?", "?", "RED", "RED"], ["BLUE", "BLUE", "BLUE", "BLUE"], []]
    ["RED", "RED"] (by decide)
    [[["RED", "RED", "RED", "RED"], ["BLUE", "BLUE", "BLUE", "BLUE"], []]]
    [["RED", "RED", "RED", "RED"], ["BLUE", "BLUE", "BLUE", "BLUE"], []]
    (by decide) (by decide)

/-- C10: when the needed list has exactly as many entries as there are
unknown positions, every candidate grid agrees with the original raw grid at
every position not listed among the unknown positions, and the raw grid held
by the `UnknownPuzzleData` is the unchanged input (the embedding is pure, so
the original grid is never mutated; the candidates are built on a copy). -/
theorem generate_candidate_grids_frame (raw : RawGrid) (needed : List String)
    (hlen : needed.length = (mkUnknownPuzzleData raw).unknown_indices.length)
    (gs : List RawGrid) (g : RawGrid)
    (hgs : generateCandidateGrids (mkUnknownPuzzleData raw) needed = some gs)
    (hg : g ∈ gs) :
    (∀ r c, (r, c) ∉ (mkUnknownPuzzleData raw).unknown_indices →
      getEntry g r c = getEntry raw r c) ∧
    (mkUnknownPuzzleData raw).raw_grid = raw := by
  have hfa := (traverseOption_eq_some_iff _ _ _).mp hgs
  obtain ⟨p, hp, hfill⟩ := forall₂_mem_right hfa g hg
  refine ⟨?_, rfl⟩
  exact (fillAux_spec (mkUnknownPuzzleData raw).unknown_indices p raw g hfill
    (mk_unknown_indices_nodup raw) (mk_unknown_inrange raw)).1

/-- Witness for C10 at the Scenario E grid: the candidate agrees with the raw
grid away from the two unknown positions. -/
theorem generate_candidate_grids_frame_witness :
    (∀ r c, (r, c) ∉ (mkUnknownPuzzleData
        [["?", "?", "RED", "RED"], ["BLUE", "BLUE", "BLUE", "BLUE"],
          []]).unknown_indices →
      getEntry [["RED", "RED", "RED", "RED"], ["BLUE", "BLUE", "BLUE", "BLUE"],
          []] r c =
        getEntry [["?", "?", "RED", "RED"], ["BLUE", "BLUE", "BLUE", "BLUE"],
          []] r c) ∧
    (mkUnknownPuzzleData
        [["?", "?", "RED", "RED"], ["BLUE", "BLUE", "BLUE", "BLUE"],
          []]).raw_grid =
      [["?", "?", "RED", "RED"], ["BLUE", "BLUE", "BLUE", "BLUE"], []] :=
  generate_candidate_grids_frame
    [["?", "?", "RED", "RED"], ["BLUE", "BLUE", "BLUE", "BLUE"], []]
    ["RED", "RED"] (by decide)
    [[["RED", "RED", "RED", "RED"], ["BLUE", "BLUE", "BLUE", "BLUE"], []]]
    [["RED", "RED", "RED", "RED"], ["BLUE", "BLUE", "BLUE", "BLUE"], []]
    (by decide) (by decide)

/-! ### Hidden-colour selection (claim C3) -/

/-- C3 counterexample: on a grid where all thirteen non-Unknown colours are
fully known and one container is entirely hidden, the needed-colour
computation of `win_strategy.find_all_solutions` and `guess.solve_mystery`
(whose colour pool `[c.name for c in Colour]` includes `UNKNOWN`) assumes
`UNKNOWN` as the fully hidden colour, so every candidate assigns `UNKNOWN`
to the unknown slots; `calculate_needed_colors` fails on the same grid. -/
theorem hidden_colour_unknown_cex :
    calculateNeededColorsWS
        [["RED", "RED", "RED", "RED"],
         ["PINK", "PINK", "PINK", "PINK"],
         ["BROWN", "BROWN", "BROWN", "BROWN"],
         ["GREEN", "GREEN", "GREEN", "GREEN"],
         ["LIGHT_GREEN", "LIGHT_GREEN", "LIGHT_GREEN", "LIGHT_GREEN"],
         ["DARK_GREEN", "DARK_GREEN", "DARK_GREEN", "DARK_GREEN"],
         ["YELLOW", "YELLOW", "YELLOW", "YELLOW"],
         ["BLUE", "BLUE", "BLUE", "BLUE"],
         ["LIGHT_BLUE", "LIGHT_BLUE", "LIGHT_BLUE", "LIGHT_BLUE"],
         ["DARK_BLUE", "DARK_BLUE", "DARK_BLUE", "DARK_BLUE"],
         ["GREY", "GREY", "GREY", "GREY"],
         ["PURPLE", "PURPLE", "PURPLE", "PURPLE"],
         ["ORANGE", "ORANGE", "ORANGE", "ORANGE"],
         ["?", "?", "?", "?"]] =
      some ["UNKNOWN", "UNKNOWN", "UNKNOWN", "UNKNOWN"] ∧
    calculateNeededColors (mkUnknownPuzzleData
        [["RED", "RED", "RED", "RED"],
         ["PINK", "PINK", "PINK", "PINK"],
         ["BROWN", "BROWN", "BROWN", "BROWN"],
         ["GREEN", "GREEN", "GREEN", "GREEN"],
         ["LIGHT_GREEN", "LIGHT_GREEN", "LIGHT_GREEN", "LIGHT_GREEN"],
         ["DARK_GREEN", "DARK_GREEN", "DARK_GREEN", "DARK_GREEN"],
         ["YELLOW", "YELLOW", "YELLOW", "YELLOW"],
         ["BLUE", "BLUE", "BLUE", "BLUE"],
         ["LIGHT_BLUE", "LIGHT_BLUE", "LIGHT_BLUE", "LIGHT_BLUE"],
         ["DARK_BLUE", "DARK_BLUE", "DARK_BLUE", "DARK_BLUE"],
         ["GREY", "GREY", "GREY", "GREY"],
         ["PURPLE", "PURPLE", "PURPLE", "PURPLE"],
         ["ORANGE", "ORANGE", "ORANGE", "ORANGE"],
         ["?", "?", "?", "?"]]) = none := by
  constructor
  · decide
  · decide

/-- C3 (amended): `calculate_needed_colors` draws hidden-set colours from the
enumeration excluding Unknown, so no unknown slot of any candidate grid it
feeds receives an Unknown marker; `find_all_solutions` (win_strategy) and
`solve_mystery` (guess) draw from the full enumeration including Unknown, so
their assumed colours are only guaranteed to lie in the known items or the
full colour list, and UNKNOWN can be assigned (see the counterexample). -/
theorem hidden_colour_selection_amended :
    (∀ raw needed, calculateNeededColors (mkUnknownPuzzleData raw) = some needed →
      "UNKNOWN" ∉ needed ∧ "?" ∉ needed ∧
      ∀ gs g, generateCandidateGrids (mkUnknownPuzzleData raw) needed = some gs →
        g ∈ gs →
        ∀ p ∈ (mkUnknownPuzzleData raw).unknown_indices,
          ∀ v, getEntry g p.1 p.2 = some v → isUnknownStr v = false) ∧
    (∀ raw needed, calculateNeededColorsWS raw = some needed →
      ∀ c ∈ needed, c ∈ (mkUnknownPuzzleData raw).all_items ∨
        c ∈ validColoursFull) := by
  have hval : ∀ c ∈ validColours, isUnknownStr c = false := by decide
  have hneed : ∀ raw needed,
      calculateNeededColors (mkUnknownPuzzleData raw) = some needed →
      ∀ c ∈ needed, isUnknownStr c = false := by
    intro raw needed hsome c hc
    rcases calcNeededFrom_mem hsome c hc with h | h
    · exact mk_all_items_known raw c h
    · exact hval c h
  constructor
  · intro raw needed hsome
    refine ⟨?_, ?_, ?_⟩
    · intro hmem
      have := hneed raw needed hsome _ hmem
      simp [isUnknownStr] at this
    · intro hmem
      have := hneed raw needed hsome _ hmem
      simp [isUnknownStr] at this
    · intro gs g hgs hg p hp v hv
      have hfa := (traverseOption_eq_some_iff _ _ _).mp hgs
      obtain ⟨perm, hpm, hfill⟩ := forall₂_mem_right hfa g hg
      have hspec := (fillAux_spec (mkUnknownPuzzleData raw).unknown_indices perm
        raw g hfill (mk_unknown_indices_nodup raw) (mk_unknown_inrange raw)).2
      obtain ⟨v2, hv2mem, hv2⟩ := forall₂_mem_left hspec p hp
      have hvv : v = v2 := by
        rw [hv] at hv2
        exact Option.some.inj hv2
      subst hvv
      have hv3 : v ∈ perm := List.mem_of_mem_take hv2mem
      have hv4 : v ∈ needed := (mem_uniquePerms.mp hpm).mem_iff.mp hv3
      exact hneed raw needed hsome v hv4
  · intro raw needed hsome
    exact calcNeededFrom_mem hsome

/-- Witness for the amended C3 at the Scenario E grid: the computed needed
list `["RED","RED"]` holds no Unknown marker. -/
theorem hidden_colour_selection_amended_witness :
    "UNKNOWN" ∉ (["RED", "RED"] : List String) :=
  (hidden_colour_selection_amended.1
    [["?", "?", "RED", "RED"], ["BLUE", "BLUE", "BLUE", "BLUE"], []]
    ["RED", "RED"] (by decide)).1

/-! ### File loading (claim C6) -/

lemma mkCollection_ne_invalidColourCount (content : RawGrid) :
    mkCollection content ≠ .error .invalidColourCount := by
  unfold mkCollection
  split_ifs with h
  · cases hm : traverseOption (fun row => traverseOption parseColour row) content with
    | none => simp
    | some st => simp
  · simp

lemma mkCollection_ok {content : RawGrid} (h : ValidRawGrid content) :
    ∃ st, mkCollection content = .ok st := by
  unfold mkCollection
  rw [if_pos (by
    rw [List.all_eq_true]
    intro row hrow
    exact decide_eq_true (h.1 row hrow))]
  obtain ⟨st, hst⟩ := @traverseOption_total (List String) (List Colour)
    (fun row => traverseOption parseColour row) content
    (fun row hrow => @traverseOption_total String Colour parseColour row
      (fun s hs => by
        have := h.2 row hrow s hs
        exact Option.isSome_iff_exists.mp this))
  rw [hst]
  exact ⟨st, rfl⟩

/-- C6: with `reject_invalid = true`, `json2collection.load` raises the
Invalid-colour-count `ValueError` exactly when some string occurring in the
grid has a count different from 4; with `reject_invalid = false` the count
check is never applied (loading is plain construction) and every grid in the
raw-grid format of spec section 6 is accepted. -/
theorem json2collection_load_validation (content : RawGrid) :
    (loadJson content true = .error .invalidColourCount ↔
      ∃ s ∈ content.flatten, content.flatten.count s ≠ 4) ∧
    loadJson content false = mkCollection content ∧
    (ValidRawGrid content → ∃ st, loadJson content false = .ok st) := by
  refine ⟨?_, rfl, ?_⟩
  · unfold loadJson
    simp only [if_pos rfl]
    by_cases hall : (countsOf content.flatten).all (fun p => p.2 == 4) = true
    · rw [if_pos hall]
      constructor
      · intro h
        exact absurd h (mkCollection_ne_invalidColourCount content)
      · rintro ⟨s, hs, hcount⟩
        exfalso
        have hkey : s ∈ (countsOf content.flatten).map Prod.fst :=
          (mem_keys_countsOf _ s).mpr hs
        rcases List.mem_map.mp hkey with ⟨p, hp, hpfst⟩
        have h4 := List.all_eq_true.mp hall p hp
        have := (countsOf_entry hp).1
        rw [hpfst] at this
        have : p.2 = 4 := by simpa using h4
        omega
    · rw [if_neg hall]
      constructor
      · intro _
        rw [List.all_eq_true] at hall
        push_neg at hall
        obtain ⟨p, hp, hne⟩ := hall
        refine ⟨p.1, (countsOf_entry hp).2, ?_⟩
        have hpc := (countsOf_entry hp).1
        have : ¬ p.2 = 4 := by simpa using hne
        omega
      · intro _
        rfl
  · intro h
    obtain ⟨st, hst⟩ := mkCollection_ok h
    exact ⟨st, by rwa [loadJson]⟩

/-- Witness for C6 at the `bad.json`-style grid
`[["RED","RED","GREEN","GREEN"], ["RED","RED","RED","GREEN"], []]`: with
`reject_invalid = true` it is rejected with the colour-count error, and with
`reject_invalid = false` it is accepted; RED occurs 5 times. -/
theorem json2collection_load_validation_witness :
    (loadJson [["RED", "RED", "GREEN", "GREEN"], ["RED", "RED", "RED", "GREEN"],
        []] true = .error .invalidColourCount ↔
      ∃ s ∈ ([["RED", "RED", "GREEN", "GREEN"],
          ["RED", "RED", "RED", "GREEN"], []] : RawGrid).flatten,
        ([["RED", "RED", "GREEN", "GREEN"], ["RED", "RED", "RED", "GREEN"],
          []] : RawGrid).flatten.count s ≠ 4) ∧
    (ValidRawGrid [["RED", "RED", "GREEN", "GREEN"],
        ["RED", "RED", "RED", "GREEN"], []] →
      ∃ st, loadJson [["RED", "RED", "GREEN", "GREEN"],
        ["RED", "RED", "RED", "GREEN"], []] false = .ok st) ∧
    ValidRawGrid [["RED", "RED", "GREEN", "GREEN"],
      ["RED", "RED", "RED", "GREEN"], []] :=
  ⟨(json2collection_load_validation _).1,
   (json2collection_load_validation _).2.2,
   by unfold ValidRawGrid; decide⟩

/-! ### Per-candidate solving (claim C7) -/

/-- C7: `solve_all_candidates` never propagates a per-candidate exception:
for every abstract per-candidate solver and every candidate list, the result
is exactly the in-order list of `(grid, moves)` pairs of the candidates whose
construction and search succeed with a solution; candidates that raise (an
`error` value) or find no solution are silently dropped and the remaining
candidates are still processed. -/
theorem solve_all_candidates_total
    (trySolve : RawGrid → Except PyExc (Option (List Move)))
    (candidateGrids : List RawGrid) :
    solveAllCandidates trySolve candidateGrids =
      candidateGrids.filterMap (fun g =>
        match trySolve g with
        | .ok (some mvs) => some (g, mvs)
        | .ok none => none
        | .error _ => none) := by
  have key : ∀ (l : List RawGrid) (acc : List (RawGrid × List Move)),
      l.foldl (fun sols g =>
        match trySolve g with
        | .ok (some mvs) => sols ++ [(g, mvs)]
        | .ok none => sols
        | .error _ => sols) acc =
      acc ++ l.filterMap (fun g =>
        match trySolve g with
        | .ok (some mvs) => some (g, mvs)
        | .ok none => none
        | .error _ => none) := by
    intro l
    induction l with
    | nil => intro acc; simp
    | cons g gs ih =>
      intro acc
      rw [List.foldl_cons, List.filterMap_cons]
      cases htr : trySolve g with
      | error e => simp only [htr]; rw [ih]
      | ok o =>
        cases o with
        | none => simp only [htr]; rw [ih]
        | some mvs =>
          simp only [htr]
          rw [ih]
          simp
  simpa [solveAllCandidates] using key candidateGrids []

/-! ### Simulation (claim C8) -/

lemma simLoop_spec : ∀ (moves : List Move) (st : PuzzleState) (i : Nat),
    simLoop st moves i =
      (renderGrid (stateAfter st (moves.take (legalCount st moves))),
        if legalCount st moves = moves.length then none
        else some (i + legalCount st moves)) ∧
    legalCount st moves ≤ moves.length ∧
    (∀ j < legalCount st moves, ∃ m, moves[j]? = some m ∧
      isValidMove (stateAfter st (moves.take j)) m = true) ∧
    (legalCount st moves < moves.length →
      ∃ m, moves[legalCount st moves]? = some m ∧
        isValidMove (stateAfter st (moves.take (legalCount st moves))) m =
          false) := by
  intro moves
  induction moves with
  | nil =>
    intro st i
    refine ⟨?_, ?_, ?_, ?_⟩ <;> simp [simLoop, legalCount, stateAfter]
  | cons m rest ih =>
    intro st i
    by_cases hv : isValidMove st m = true
    · have hlc : legalCount st (m :: rest) =
          legalCount (applyMove st m) rest + 1 := by
        simp [legalCount, hv]
      obtain ⟨ih1, ih2, ih3, ih4⟩ := ih (applyMove st m) (i + 1)
      have htake : ∀ k : Nat, stateAfter st ((m :: rest).take (k + 1)) =
          stateAfter (applyMove st m) (rest.take k) := by
        intro k
        simp [stateAfter, List.take_succ_cons]
      refine ⟨?_, ?_, ?_, ?_⟩
      · rw [hlc]
        have hstep : simLoop st (m :: rest) i =
            simLoop (applyMove st m) rest (i + 1) := by
          simp [simLoop, hv]
        rw [hstep, ih1, htake]
        congr 1
        by_cases he : legalCount (applyMove st m) rest = rest.length
        · simp [he]
        · have h1 : ¬ (legalCount (applyMove st m) rest + 1 =
              (m :: rest).length) := by
            simp only [List.length_cons]
            omega
          simp only [he, h1, if_false, if_neg he, if_neg h1]
          congr 1
          omega
      · rw [hlc]
        simp only [List.length_cons]
        omega
      · rw [hlc]
        intro j hj
        cases j with
        | zero =>
          refine ⟨m, by simp, ?_⟩
          simpa [stateAfter] using hv
        | succ j2 =>
          obtain ⟨m2, hm2, hvm2⟩ := ih3 j2 (by omega)
          refine ⟨m2, by simpa using hm2, ?_⟩
          rw [htake]
          exact hvm2
      · rw [hlc]
        intro hlt
        obtain ⟨m2, hm2, hvm2⟩ := ih4 (by simpa using hlt)
        refine ⟨m2, by simpa using hm2, ?_⟩
        rw [htake]
        exact hvm2
    · have hv' : isValidMove st m = false := by simpa using hv
      have hlc : legalCount st (m :: rest) = 0 := by
        simp [legalCount, hv']
      refine ⟨?_, ?_, ?_, ?_⟩
      · rw [hlc]
        have hstep : simLoop st (m :: rest) i = (renderGrid st, some i) := by
          simp [simLoop, hv']
        rw [hstep]
        simp [stateAfter]
      · rw [hlc]
        simp
      · rw [hlc]
        intro j hj
        omega
      · rw [hlc]
        intro _
        refine ⟨m, by simp, ?_⟩
        simpa [stateAfter] using hv'

/-- C8: for every raw grid (in the spec's raw-grid format) and move list,
`simulate_moves_on_grid` returns a failing index of `none` exactly when every
move applies legally in order, in which case the returned grid renders the
final state; otherwise the failing index is the 0-based index `k` of the
first move that is illegal (or raises), and the returned grid renders the
state reached after exactly the first `k` moves. -/
theorem simulate_moves_on_grid_correct (grid : RawGrid) (moves : List Move)
    (hvalid : ValidRawGrid grid) :
    ∃ st, mkCollection grid = .ok st ∧
      simulateMovesOnGrid grid moves =
        (renderGrid (stateAfter st (moves.take (legalCount st moves))),
          if legalCount st moves = moves.length then none
          else some (legalCount st moves)) ∧
      legalCount st moves ≤ moves.length ∧
      (∀ j < legalCount st moves, ∃ m, moves[j]? = some m ∧
        isValidMove (stateAfter st (moves.take j)) m = true) ∧
      (legalCount st moves < moves.length →
        ∃ m, moves[legalCount st moves]? = some m ∧
          isValidMove (stateAfter st (moves.take (legalCount st moves))) m =
            false) := by
  obtain ⟨st, hst⟩ := mkCollection_ok hvalid
  obtain ⟨h1, h2, h3, h4⟩ := simLoop_spec moves st 0
  refine ⟨st, hst, ?_, h2, h3, h4⟩
  have hsim : simulateMovesOnGrid grid moves = simLoop st moves 0 := by
    unfold simulateMovesOnGrid
    rw [hst]
  rw [hsim, h1]
  congr 1
  by_cases he : legalCount st moves = moves.length <;> simp [he]

/-- Witness for C8 at the Scenario B grid
`[["BLUE","RED","RED","RED"], ["BLUE","BLUE","BLUE"], []]` with the moves
`[(0,2), (0,1)]`: both moves apply and the failing index is `none`. -/
theorem simulate_moves_on_grid_correct_witness :
    (∃ st, mkCollection [["BLUE", "RED", "RED", "RED"],
        ["BLUE", "BLUE", "BLUE"], []] = .ok st ∧
      simulateMovesOnGrid [["BLUE", "RED", "RED", "RED"],
          ["BLUE", "BLUE", "BLUE"], []] [Move.mk 0 2, Move.mk 0 1] =
        (renderGrid (stateAfter st
            (([Move.mk 0 2, Move.mk 0 1] : List Move).take
              (legalCount st [Move.mk 0 2, Move.mk 0 1]))),
          if legalCount st [Move.mk 0 2, Move.mk 0 1] =
              ([Move.mk 0 2, Move.mk 0 1] : List Move).length then none
          else some (legalCount st [Move.mk 0 2, Move.mk 0 1])) ∧
      legalCount st [Move.mk 0 2, Move.mk 0 1] ≤
        ([Move.mk 0 2, Move.mk 0 1] : List Move).length ∧
      (∀ j < legalCount st [Move.mk 0 2, Move.mk 0 1],
        ∃ m, ([Move.mk 0 2, Move.mk 0 1] : List Move)[j]? = some m ∧
          isValidMove (stateAfter st
            (([Move.mk 0 2, Move.mk 0 1] : List Move).take j)) m = true) ∧
      (legalCount st [Move.mk 0 2, Move.mk 0 1] <
          ([Move.mk 0 2, Move.mk 0 1] : List Move).length →
        ∃ m, ([Move.mk 0 2, Move.mk 0 1] :
            List Move)[legalCount st [Move.mk 0 2, Move.mk 0 1]]? = some m ∧
          isValidMove (stateAfter st
            (([Move.mk 0 2, Move.mk 0 1] : List Move).take
              (legalCount st [Move.mk 0 2, Move.mk 0 1]))) m = false)) ∧
    simulateMovesOnGrid [["BLUE", "RED", "RED", "RED"],
        ["BLUE", "BLUE", "BLUE"], []] [Move.mk 0 2, Move.mk 0 1] =
      ([[], ["BLUE", "BLUE", "BLUE", "BLUE"], ["RED", "RED", "RED"]], none) :=
  ⟨simulate_moves_on_grid_correct
    [["BLUE", "RED", "RED", "RED"], ["BLUE", "BLUE", "BLUE"], []]
    [Move.mk 0 2, Move.mk 0 1] (by unfold ValidRawGrid; decide),
   by decide⟩

/-! ### Step matching (claim C9) -/

lemma zipCommon_eq_of_length : ∀ (a b : List (Nat × Nat)),
    a.length = b.length → zipCommon a b = .ok (commonPrefixLen a b) := by
  intro a
  induction a with
  | nil =>
    intro b h
    cases b with
    | nil => rfl
    | cons y ys => simp at h
  | cons x xs ih =>
    intro b h
    cases b with
    | nil => simp at h
    | cons y ys =>
      by_cases hxy : x = y
      · subst hxy
        have hrec := ih ys (by simpa using h)
        have hcpl : commonPrefixLen (x :: xs) (x :: ys) =
            commonPrefixLen xs ys + 1 := by
          simp [commonPrefixLen, List.zip_cons_cons, List.takeWhile_cons]
        rw [hcpl]
        show (if x = x then (zipCommon xs ys).map (fun k => k + 1)
          else .ok 0) = .ok (commonPrefixLen xs ys + 1)
        rw [if_pos rfl, hrec]
        rfl
      · have hcpl : commonPrefixLen (x :: xs) (y :: ys) = 0 := by
          have hne : ¬ (x == y) = true := by simpa using hxy
          simp [commonPrefixLen, List.zip_cons_cons, List.takeWhile_cons, hne]
        rw [hcpl]
        show (if x = y then (zipCommon xs ys).map (fun k => k + 1)
          else .ok 0) = .ok 0
        rw [if_neg hxy]

lemma commonPrefixLen_le_left (a b : List (Nat × Nat)) :
    commonPrefixLen a b ≤ a.length := by
  unfold commonPrefixLen
  calc ((a.zip b).takeWhile (fun q => q.1 == q.2)).length ≤ (a.zip b).length :=
        (List.takeWhile_sublist _).length_le
    _ ≤ a.length := by rw [List.length_zip]; omega

lemma commonPrefixLen_eq_length_iff : ∀ (a b : List (Nat × Nat)),
    a.length = b.length → (commonPrefixLen a b = a.length ↔ a = b) := by
  intro a
  induction a with
  | nil =>
    intro b h
    cases b with
    | nil => simp [commonPrefixLen]
    | cons y ys => simp at h
  | cons x xs ih =>
    intro b h
    cases b with
    | nil => simp at h
    | cons y ys =>
      by_cases hxy : x = y
      · subst hxy
        have hcpl : commonPrefixLen (x :: xs) (x :: ys) =
            commonPrefixLen xs ys + 1 := by
          simp [commonPrefixLen, List.zip_cons_cons, List.takeWhile_cons]
        rw [hcpl]
        simp only [List.length_cons, Nat.succ.injEq, List.cons.injEq, true_and]
        exact ih ys (by simpa using h)
      · have hne : ¬ (x == y) = true := by simpa using hxy
        have hcpl : commonPrefixLen (x :: xs) (y :: ys) = 0 := by
          simp [commonPrefixLen, List.zip_cons_cons, List.takeWhile_cons, hne]
        rw [hcpl]
        simp only [List.length_cons, List.cons.injEq]
        constructor
        · intro h0
          omega
        · rintro ⟨he, _⟩
          exact absurd he hxy

lemma commonPrefixLen_self (a : List (Nat × Nat)) :
    commonPrefixLen a a = a.length :=
  (commonPrefixLen_eq_length_iff a a rfl).mpr rfl

lemma msLoop_ok (solve : RawGrid → Option (List (Nat × Nat)))
    (refMoves : List (Nat × Nat)) (n : Nat) :
    ∀ (folder : List (String × RawGrid)),
    (∀ fg ∈ folder, classifyFile solve refMoves n fg.2 ≠ .error ()) →
    ∃ ms, msLoop solve refMoves n folder = .ok ms ∧
      ∀ fname, fname ∈ ms ↔ ∃ grid, (fname, grid) ∈ folder ∧
        classifyFile solve refMoves n grid = .ok .fullMatch := by
  intro folder
  induction folder with
  | nil =>
    intro _
    exact ⟨[], rfl, by simp⟩
  | cons fg rest ih =>
    obtain ⟨f, g⟩ := fg
    intro hne
    obtain ⟨ms, hms, hiff⟩ := ih (fun x hx => hne x (List.mem_cons_of_mem _ hx))
    cases hcl : classifyFile solve refMoves n g with
    | error e =>
      cases e
      exact absurd hcl (hne (f, g) (by simp))
    | ok res =>
      refine ⟨if res = .fullMatch then f :: ms else ms, ?_, ?_⟩
      · simp only [msLoop, hcl, hms, Option.map]
        rfl
      · intro fname
        by_cases hres : res = MatchRes.fullMatch
        · subst hres
          rw [if_pos rfl]
          constructor
          · intro hmem
            rcases List.mem_cons.mp hmem with he | hmem2
            · subst he
              exact ⟨g, List.mem_cons_self _ _, hcl⟩
            · obtain ⟨g2, hg2, hcl2⟩ := (hiff fname).mp hmem2
              exact ⟨g2, List.mem_cons_of_mem _ hg2, hcl2⟩
          · rintro ⟨g2, hg2, hcl2⟩
            rcases List.mem_cons.mp hg2 with heq | hg3
            · have hf : fname = f := congrArg Prod.fst heq
              subst hf
              exact List.mem_cons_self _ _
            · exact List.mem_cons_of_mem _ ((hiff fname).mpr ⟨g2, hg3, hcl2⟩)
        · rw [if_neg hres, hiff fname]
          constructor
          · rintro ⟨g2, hg2, hcl2⟩
            exact ⟨g2, List.mem_cons_of_mem _ hg2, hcl2⟩
          · rintro ⟨g2, hg2, hcl2⟩
            rcases List.mem_cons.mp hg2 with heq | hg3
            · exfalso
              have hg2e : g2 = g := congrArg Prod.snd heq
              rw [hg2e, hcl] at hcl2
              exact hres (Except.ok.inj hcl2)
            · exact ⟨g2, hg3, hcl2⟩

/-- C9 counterexample: the reference solves in two moves, the candidate file
solves in one move agreeing with the reference's first move, and `N = 2`: the
strict `zip` raises `ValueError` instead of classifying the candidate, so no
list of matching file names is returned. -/
theorem match_first_steps_cex :
    matchFirstSteps
        (fun g => if g = [["R"]] then some [(0, 1), (1, 2)] else some [(0, 1)])
        [("cand.json", [["C"]])] [["R"]] 2 =
      some (.error ()) := rfl

/-- C9 (amended): provided the reference is solvable and every solvable
candidate's truncated move tuple has the same length as the reference's,
`match_first_steps` returns the list of file names classified as full
matches, where a candidate is a full match exactly when its truncated moves
equal the reference's truncated moves and those have length `N`; it is a
partial match exactly when the agreeing prefix is non-empty but not `N` long,
and differs exactly when no move agrees (and `N ≠ 0`).  When truncated
lengths differ after agreeing throughout the shorter tuple, a `ValueError`
from the strict zip propagates instead (see the counterexample). -/
theorem match_first_steps_amended
    (solve : RawGrid → Option (List (Nat × Nat)))
    (folder : List (String × RawGrid)) (refGrid : RawGrid) (n : Nat)
    (refMoves : List (Nat × Nat))
    (href : getFirstMoves solve refGrid n = some refMoves)
    (hlen : ∀ fg ∈ folder, ∀ mvs, getFirstMoves solve fg.2 n = some mvs →
      mvs.length = refMoves.length) :
    ∃ ms, matchFirstSteps solve folder refGrid n = some (.ok ms) ∧
      (∀ fname, fname ∈ ms ↔ ∃ grid, (fname, grid) ∈ folder ∧
        getFirstMoves solve grid n = some refMoves ∧ refMoves.length = n) ∧
      (∀ fg ∈ folder, ∀ mvs, getFirstMoves solve fg.2 n = some mvs →
        ((classifyFile solve refMoves n fg.2 = .ok .fullMatch ↔
            (mvs = refMoves ∧ refMoves.length = n)) ∧
         (classifyFile solve refMoves n fg.2 = .ok .partMatch ↔
            (0 < commonPrefixLen refMoves mvs ∧
              commonPrefixLen refMoves mvs ≠ n)) ∧
         (classifyFile solve refMoves n fg.2 = .ok .differs ↔
            (commonPrefixLen refMoves mvs = 0 ∧ n ≠ 0)))) := by
  have hrefle : refMoves.length ≤ n := by
    unfold getFirstMoves at href
    rcases Option.map_eq_some'.mp href with ⟨full, _, hfull⟩
    rw [← hfull, List.length_take]
    omega
  have hclassify : ∀ grid mvs, getFirstMoves solve grid n = some mvs →
      mvs.length = refMoves.length →
      classifyFile solve refMoves n grid =
        .ok (if commonPrefixLen refMoves mvs = n then MatchRes.fullMatch
          else if 0 < commonPrefixLen refMoves mvs then MatchRes.partMatch
          else MatchRes.differs) := by
    intro grid mvs hm hml
    have h1 : classifyFile solve refMoves n grid =
        (zipCommon refMoves mvs).map (fun common =>
          if common = n then MatchRes.fullMatch
          else if 0 < common then MatchRes.partMatch
          else MatchRes.differs) := by
      unfold classifyFile
      rw [hm]
    rw [h1, zipCommon_eq_of_length refMoves mvs hml.symm]
    rfl
  have hfull_iff : ∀ grid mvs, getFirstMoves solve grid n = some mvs →
      mvs.length = refMoves.length →
      (classifyFile solve refMoves n grid = .ok .fullMatch ↔
        (mvs = refMoves ∧ refMoves.length = n)) := by
    intro grid mvs hm hml
    rw [hclassify grid mvs hm hml]
    constructor
    · intro h
      have hcn : commonPrefixLen refMoves mvs = n := by
        by_contra hne
        rw [if_neg hne] at h
        split_ifs at h <;> cases Except.ok.inj h
      have hle2 := commonPrefixLen_le_left refMoves mvs
      have hrl : refMoves.length = n := by omega
      have heq : refMoves = mvs :=
        (commonPrefixLen_eq_length_iff refMoves mvs hml.symm).mp (by omega)
      exact ⟨heq.symm, hrl⟩
    · rintro ⟨rfl, hrl⟩
      rw [commonPrefixLen_self, hrl, if_pos rfl]
  have hne : ∀ fg ∈ folder, classifyFile solve refMoves n fg.2 ≠ .error () := by
    intro fg hfg
    cases hm : getFirstMoves solve fg.2 n with
    | none =>
      have h1 : classifyFile solve refMoves n fg.2 = .ok .noSol := by
        unfold classifyFile
        rw [hm]
      rw [h1]
      simp
    | some mvs =>
      rw [hclassify fg.2 mvs hm (hlen fg hfg mvs hm)]
      simp
  obtain ⟨ms, hms, hiff⟩ := msLoop_ok solve refMoves n folder hne
  have hmatch : matchFirstSteps solve folder refGrid n =
      some (msLoop solve refMoves n folder) := by
    unfold matchFirstSteps
    rw [href]
  refine ⟨ms, by rw [hmatch, hms], ?_, ?_⟩
  · intro fname
    rw [hiff fname]
    constructor
    · rintro ⟨grid, hg, hcl⟩
      cases hm : getFirstMoves solve grid n with
      | none =>
        exfalso
        have h1 : classifyFile solve refMoves n grid = .ok .noSol := by
          unfold classifyFile
          rw [hm]
        rw [h1] at hcl
        cases Except.ok.inj hcl
      | some mvs =>
        have h1 := (hfull_iff grid mvs hm (hlen (fname, grid) hg mvs hm)).mp hcl
        exact ⟨grid, hg, by rw [hm, h1.1], h1.2⟩
    · rintro ⟨grid, hg, hm, hrl⟩
      refine ⟨grid, hg, ?_⟩
      exact (hfull_iff grid refMoves hm rfl).mpr ⟨rfl, hrl⟩
  · intro fg hfg mvs hm
    have hml := hlen fg hfg mvs hm
    refine ⟨hfull_iff fg.2 mvs hm hml, ?_, ?_⟩
    · rw [hclassify fg.2 mvs hm hml]
      constructor
      · intro h
        by_cases h1 : commonPrefixLen refMoves mvs = n
        · rw [if_pos h1] at h
          cases Except.ok.inj h
        · rw [if_neg h1] at h
          by_cases h2 : 0 < commonPrefixLen refMoves mvs
          · exact ⟨h2, h1⟩
          · rw [if_neg h2] at h
            cases Except.ok.inj h
      · rintro ⟨h2, h1⟩
        rw [if_neg h1, if_pos h2]
    · rw [hclassify fg.2 mvs hm hml]
      constructor
      · intro h
        by_cases h1 : commonPrefixLen refMoves mvs = n
        · rw [if_pos h1] at h
          cases Except.ok.inj h
        · rw [if_neg h1] at h
          by_cases h2 : 0 < commonPrefixLen refMoves mvs
          · rw [if_pos h2] at h
            cases Except.ok.inj h
          · refine ⟨by omega, ?_⟩
            intro hn0
            exact h1 (by omega)
      · rintro ⟨h0, hn0⟩
        have h1 : commonPrefixLen refMoves mvs ≠ n := by omega
        rw [if_neg h1, if_neg (by omega)]

/-- Witness for the amended C9: one candidate folder entry whose first two
moves equal the reference's first two moves; `match_first_steps` returns an
ok list. -/
theorem match_first_steps_amended_witness :
    ∃ ms, matchFirstSteps (fun _ => some [(0, 1), (1, 2)])
        [("a.json", [["C"]])] [["R"]] 2 = some (.ok ms) := by
  obtain ⟨ms, hms, _⟩ := match_first_steps_amended
    (fun _ => some [(0, 1), (1, 2)]) [("a.json", [["C"]])] [["R"]] 2
    [(0, 1), (1, 2)] rfl
    (by
      intro fg hfg mvs hm
      rw [List.mem_singleton] at hfg
      subst hfg
      have hred : getFirstMoves (fun _ => some [(0, 1), (1, 2)]) [["C"]] 2 =
          some [(0, 1), (1, 2)] := rfl
      rw [hred] at hm
      rw [← Option.some.inj hm])
  exact ⟨ms, hms⟩

end ChromaOracle
